import Mathlib

/-!
proyecto-negocios: the CSV loader and the two aggregations of `src/App.js`

A shallow embedding of the three pieces of logic in `src/App.js`:

* the row filter inside `fetchCSV` (lines 19-25),
* `SummaryTable`'s per-metric average (lines 44-48),
* `App`'s `groupByModel` (lines 79-89) and the state `data` it reads,

together with the ECMAScript operations they call (`||`, `Number`, `+`, `/`,
`Number.prototype.toFixed`, property access on plain objects,
`Object.values`, `Object.entries`).  JavaScript numbers are IEEE-754 binary64
values; a finite one is represented by the rational it denotes and every
arithmetic result is rounded to the nearest binary64 value, ties to even.

The file has the ECMAScript layer first, then the three functions of the
program, then the vocabulary in which the specification speaks (exact means,
three-decimal texts, first-encounter order) and a few sample records, and
last the theorems relating the two.
-/

namespace App

/-! ## ECMAScript numbers -/

/-- A JavaScript Number: NaN, the two infinities, negative zero, or a finite
value given by the rational it denotes (`fin 0` is positive zero). -/
inductive JSNum where
  | nan : JSNum
  | inf (neg : Bool) : JSNum
  | negZero : JSNum
  | fin (q : ℚ) : JSNum
  deriving DecidableEq

/-- Halve `n` until it is below 2, counting the steps. -/
def log2Aux : Nat → Nat → Nat
  | 0, _ => 0
  | fuel + 1, n => if 2 ≤ n then log2Aux fuel (n / 2) + 1 else 0

/-- The `k` with `2^k ≤ n < 2^(k+1)`, for positive `n`. -/
def log2 (n : Nat) : Nat := log2Aux n n

/-- The integer `k` with `2^k ≤ n/d < 2^(k+1)`, for positive `n` and `d`. -/
def floorLog2 (n d : Nat) : Int :=
  let k : Int := (log2 n : Int) - (log2 d : Int)
  if 0 ≤ k then (if d * 2 ^ k.toNat ≤ n then k else k - 1)
  else (if d ≤ n * 2 ^ (-k).toNat then k else k - 1)

/-- The rational `m * 2^e`. -/
def scale2 (m : Nat) (e : Int) : ℚ :=
  if 0 ≤ e then ((m * 2 ^ e.toNat : Nat) : ℚ) else (m : ℚ) / ((2 ^ (-e).toNat : Nat) : ℚ)

/-- The integer nearest to `N / D`, the even one on a tie. -/
def roundHalfEven (N D : Nat) : Nat :=
  let qf := N / D
  let r := N % D
  if 2 * r < D then qf else if D < 2 * r then qf + 1
  else if qf % 2 = 0 then qf else qf + 1

/-- Round a rational to the nearest binary64 value, ties to even (53-bit
significand, least exponent `-1074`, overflow to infinity from `2^1024`). -/
def roundQ (q : ℚ) : JSNum :=
  if q = 0 then JSNum.fin 0
  else
    let n := q.num.natAbs
    let d := q.den
    let neg := decide (q.num < 0)
    let e : Int := max (floorLog2 n d - 52) (-1074)
    if 972 ≤ e then JSNum.inf neg
    else
      let m := if 0 ≤ e then roundHalfEven n (d * 2 ^ e.toNat)
               else roundHalfEven (n * 2 ^ (-e).toNat) d
      if m = 0 then (if neg then JSNum.negZero else JSNum.fin 0)
      else if e = 971 ∧ 2 ^ 53 ≤ m then JSNum.inf neg
      else JSNum.fin (if neg then - scale2 m e else scale2 m e)

/-- A rational is a binary64 value when rounding leaves it unchanged. -/
def Exact (q : ℚ) : Prop := roundQ q = JSNum.fin q

instance (q : ℚ) : Decidable (Exact q) := by unfold Exact; infer_instance

/-- The Number for a non-negative integer such as an array length. -/
def ofNat (n : Nat) : JSNum := roundQ (n : ℚ)

/-- Whether a Number carries the negative sign (NaN counts as unsigned). -/
def JSNum.isNeg : JSNum → Bool
  | JSNum.nan => false
  | JSNum.inf neg => neg
  | JSNum.negZero => true
  | JSNum.fin q => decide (q < 0)

/-- Zero with the given sign. -/
def signedZero (neg : Bool) : JSNum := if neg then JSNum.negZero else JSNum.fin 0

/-- The rational denoted by a finite Number. -/
def JSNum.toRat? : JSNum → Option ℚ
  | JSNum.negZero => some 0
  | JSNum.fin q => some q
  | _ => none

/-- Number addition `x + y` (ECMAScript Number::add). -/
def add : JSNum → JSNum → JSNum
  | JSNum.nan, _ => JSNum.nan
  | _, JSNum.nan => JSNum.nan
  | JSNum.inf a, JSNum.inf b => if a = b then JSNum.inf a else JSNum.nan
  | JSNum.inf a, _ => JSNum.inf a
  | _, JSNum.inf b => JSNum.inf b
  | JSNum.negZero, JSNum.negZero => JSNum.negZero
  | JSNum.negZero, JSNum.fin b => JSNum.fin b
  | JSNum.fin a, JSNum.negZero => JSNum.fin a
  | JSNum.fin a, JSNum.fin b => if a + b = 0 then JSNum.fin 0 else roundQ (a + b)

/-- Number division `x / y` (ECMAScript Number::divide). -/
def div : JSNum → JSNum → JSNum
  | JSNum.nan, _ => JSNum.nan
  | _, JSNum.nan => JSNum.nan
  | JSNum.inf _, JSNum.inf _ => JSNum.nan
  | JSNum.inf a, y => JSNum.inf (xor a y.isNeg)
  | x, JSNum.inf b => signedZero (xor x.isNeg b)
  | x, y =>
    match x.toRat?, y.toRat? with
    | some a, some b =>
      if b = 0 then (if a = 0 then JSNum.nan else JSNum.inf (xor x.isNeg y.isNeg))
      else if a = 0 then signedZero (xor x.isNeg y.isNeg)
      else roundQ (a / b)
    | _, _ => JSNum.nan

/-! ## Decimal text of numbers -/

/-- The character of the decimal digit `d`. -/
def digitChar (d : Nat) : Char := Char.ofNat (48 + d)

/-- Decimal digits of `n`, most significant first, put in front of `acc`. -/
def decDigitsAux : Nat → Nat → List Char → List Char
  | 0, _, acc => acc
  | fuel + 1, n, acc =>
    if n < 10 then digitChar n :: acc
    else decDigitsAux fuel (n / 10) (digitChar (n % 10) :: acc)

/-- The decimal representation of `n` with no leading zeroes (`0` gives "0"). -/
def decDigits (n : Nat) : List Char := decDigitsAux (n + 1) n []

/-- The rational `10^i`. -/
def pow10 (i : Int) : ℚ :=
  if 0 ≤ i then ((10 ^ i.toNat : Nat) : ℚ) else 1 / ((10 ^ (-i).toNat : Nat) : ℚ)

/-- Integer part of a non-negative rational. -/
def floorNat (x : ℚ) : Nat := x.num.toNat / x.den

/-- For `0 < x < 1`, the number of zeros right after the decimal point. -/
def leadingZeros : Nat → ℚ → Nat
  | 0, _ => 0
  | fuel + 1, x => if 1 ≤ x * 10 then 0 else leadingZeros fuel (x * 10) + 1

/-- The integer `n` with `10^(n-1) ≤ x < 10^n`, for positive `x`. -/
def decExponent (x : ℚ) : Int :=
  if 1 ≤ x then ((decDigits (floorNat x)).length : Int) else - (leadingZeros 400 x : Int)

/-- Of two candidate digit strings `s * 10^(n-k)` keep the one nearer to `x`
(the even `s` when equally near). -/
def nearer (x : ℚ) (k : Nat) (a b : Nat × Int) : Nat × Int :=
  let da := |(a.1 : ℚ) * pow10 (a.2 - k) - x|
  let db := |(b.1 : ℚ) * pow10 (b.2 - k) - x|
  if da < db then a else if db < da then b else if a.1 % 2 = 0 then a else b

/-- Number::toString, step 5: integers `(s, n, k)` with `10^(k-1) ≤ s < 10^k`,
`s * 10^(n-k)` rounding to `x`, and `k` as small as possible; `n0` is the
decimal exponent of `x` and the search starts at `k`. -/
def shortestAux : Nat → Nat → ℚ → Int → Nat × Int × Nat
  | 0, k, x, n0 => (floorNat (x * pow10 (k - n0)), n0, k)
  | fuel + 1, k, x, n0 =>
    let s1 := floorNat (x * pow10 (k - n0))
    let cands : List (Nat × Int) := [(s1, n0), (s1 + 1, n0), (10 ^ (k - 1), n0 + 1)]
    let ok := cands.filter (fun c =>
      decide (10 ^ (k - 1) ≤ c.1 ∧ c.1 < 10 ^ k ∧
        roundQ ((c.1 : ℚ) * pow10 (c.2 - k)) = JSNum.fin x))
    match ok with
    | [] => shortestAux fuel (k + 1) x n0
    | c :: cs => let b := cs.foldl (nearer x k) c; (b.1, b.2, k)

/-- Number::toString for a positive finite value (radix 10). -/
def posToString (x : ℚ) : List Char :=
  match shortestAux 17 1 x (decExponent x) with
  | (s, n, k) =>
    let ds := decDigits s
    if -5 ≤ n ∧ n ≤ 21 then
      if (k : Int) ≤ n then ds ++ List.replicate (n - k).toNat '0'
      else if 0 < n then ds.take n.toNat ++ '.' :: ds.drop n.toNat
      else '0' :: '.' :: (List.replicate (-n).toNat '0' ++ ds)
    else
      let e := n - 1
      let es := (if e < 0 then '-' else '+') :: decDigits e.natAbs
      if k = 1 then ds ++ 'e' :: es
      else ds.take 1 ++ '.' :: (ds.drop 1 ++ 'e' :: es)

/-- Number::toString (radix 10), which is also ToString on a Number. -/
def numToString : JSNum → String
  | JSNum.nan => "NaN"
  | JSNum.negZero => "0"
  | JSNum.inf neg => if neg then "-Infinity" else "Infinity"
  | JSNum.fin q =>
    if q = 0 then "0"
    else if q < 0 then String.mk ('-' :: posToString (-q))
    else String.mk (posToString q)

/-- Steps 8-9 of Number.prototype.toFixed: the decimal digits of `n`, padded
with zeros to more than `f` digits, with a point before the last `f`. -/
def fixedDigits (n f : Nat) : List Char :=
  let m := decDigits n
  let m := if m.length ≤ f then List.replicate (f + 1 - m.length) '0' ++ m else m
  if f = 0 then m else m.take (m.length - f) ++ '.' :: m.drop (m.length - f)

/-- The integer nearest to the non-negative `x`, the larger one on a tie. -/
def nearestInt (x : ℚ) : Nat := floorNat (x + 1 / 2)

/-- The method `Number.prototype.toFixed(f)`, for `f ≤ 100`. -/
def toFixed (x : JSNum) (f : Nat) : String :=
  match x with
  | JSNum.nan => "NaN"
  | JSNum.inf neg => if neg then "-Infinity" else "Infinity"
  | JSNum.negZero => String.mk (fixedDigits 0 f)
  | JSNum.fin q =>
    if (10 : ℚ) ^ 21 ≤ |q| then numToString (JSNum.fin q)
    else if q < 0 then String.mk ('-' :: fixedDigits (nearestInt (-q * 10 ^ f)) f)
    else String.mk (fixedDigits (nearestInt (q * 10 ^ f)) f)

/-! ## StringToNumber -/

/-- The characters of StrWhiteSpaceChar (WhiteSpace and LineTerminator). -/
def isStrWhiteSpace (c : Char) : Bool :=
  let n := c.toNat
  n == 9 || n == 10 || n == 11 || n == 12 || n == 13 || n == 32 || n == 160 ||
  n == 5760 || (8192 ≤ n && n ≤ 8202) || n == 8232 || n == 8233 || n == 8239 ||
  n == 8287 || n == 12288 || n == 65279

/-- Drop StrWhiteSpace at both ends. -/
def trimWhiteSpace (cs : List Char) : List Char :=
  ((cs.dropWhile isStrWhiteSpace).reverse.dropWhile isStrWhiteSpace).reverse

/-- Value of a digit character in the given radix (letters in either case). -/
def digitValue (radix : Nat) (c : Char) : Option Nat :=
  let n := c.toNat
  let v := if 48 ≤ n ∧ n ≤ 57 then some (n - 48)
           else if 97 ≤ n ∧ n ≤ 102 then some (n - 87)
           else if 65 ≤ n ∧ n ≤ 70 then some (n - 55)
           else none
  match v with
  | some d => if d < radix then some d else none
  | none => none

/-- Read a run of digits in the given radix, accumulating onto `acc`. -/
def readDigits (radix : Nat) : List Char → Nat → Option Nat
  | [], acc => some acc
  | c :: cs, acc =>
    match digitValue radix c with
    | some d => readDigits radix cs (acc * radix + d)
    | none => none

/-- A non-empty run of digits in the given radix. -/
def readNat (radix : Nat) (cs : List Char) : Option Nat :=
  if cs = [] then none else readDigits radix cs 0

/-- Whether `c` is a decimal digit. -/
def isDecDigit (c : Char) : Bool := (digitValue 10 c).isSome

/-- ExponentPart: `e` or `E`, an optional sign, and decimal digits; the empty
text is the absent exponent. -/
def readExponent : List Char → Option Int
  | [] => some 0
  | c :: cs =>
    if c = 'e' ∨ c = 'E' then
      match cs with
      | '+' :: ds => (readNat 10 ds).map (fun n => (n : Int))
      | '-' :: ds => (readNat 10 ds).map (fun n => - (n : Int))
      | ds => (readNat 10 ds).map (fun n => (n : Int))
    else none

/-- StrUnsignedDecimalLiteral other than `Infinity`: mantissa digits and the
power of ten that multiplies them. -/
def readUnsignedDecimal (cs : List Char) : Option (Nat × Int) :=
  let ip := cs.takeWhile isDecDigit
  let rest := cs.dropWhile isDecDigit
  match rest with
  | '.' :: rest1 =>
    let fp := rest1.takeWhile isDecDigit
    let rest2 := rest1.dropWhile isDecDigit
    if ip = [] ∧ fp = [] then none
    else
      match readDigits 10 (ip ++ fp) 0, readExponent rest2 with
      | some m, some e => some (m, e - fp.length)
      | _, _ => none
  | _ =>
    if ip = [] then none
    else
      match readDigits 10 ip 0, readExponent rest with
      | some m, some e => some (m, e)
      | _, _ => none

/-- The Number for the mathematical value `m * 10^e` with the given sign. -/
def decimalValue (neg : Bool) (m : Nat) (e : Int) : JSNum :=
  if m = 0 then signedZero neg
  else roundQ ((if neg then -(m : ℚ) else (m : ℚ)) * pow10 e)

/-- StrUnsignedDecimalLiteral with the sign already read. -/
def readSignedDecimal (neg : Bool) (cs : List Char) : JSNum :=
  if cs = "Infinity".data then JSNum.inf neg
  else
    match readUnsignedDecimal cs with
    | some (m, e) => decimalValue neg m e
    | none => JSNum.nan

/-- StringToNumber on the characters of a string. -/
def strToNumChars (cs : List Char) : JSNum :=
  match trimWhiteSpace cs with
  | [] => JSNum.fin 0
  | '+' :: rest => readSignedDecimal false rest
  | '-' :: rest => readSignedDecimal true rest
  | '0' :: c :: rest =>
    let radix := if c = 'x' ∨ c = 'X' then 16 else if c = 'o' ∨ c = 'O' then 8
                 else if c = 'b' ∨ c = 'B' then 2 else 0
    if radix = 0 then readSignedDecimal false ('0' :: c :: rest)
    else
      match readNat radix rest with
      | some n => roundQ (n : ℚ)
      | none => JSNum.nan
  | t => readSignedDecimal false t

/-- StringToNumber. -/
def strToNum (s : String) : JSNum := strToNumChars s.data

/-! ## Values, objects and rows -/

/-- A JavaScript value as the program meets it: a primitive, or an object (an
array, a Date, a function) known by what ToNumber and ToString make of it. -/
inductive JSVal where
  | undefined : JSVal
  | null : JSVal
  | bool (b : Bool) : JSVal
  | num (x : JSNum) : JSVal
  | str (s : String) : JSVal
  | obj (toNum : JSNum) (toStr : String) : JSVal
  deriving DecidableEq

/-- ToBoolean. -/
def toBoolean : JSVal → Bool
  | JSVal.undefined => false
  | JSVal.null => false
  | JSVal.bool b => b
  | JSVal.num JSNum.nan => false
  | JSVal.num JSNum.negZero => false
  | JSVal.num (JSNum.fin q) => decide (q ≠ 0)
  | JSVal.num (JSNum.inf _) => true
  | JSVal.str s => decide (s ≠ "")
  | JSVal.obj _ _ => true

/-- The operator `a || b`. -/
def or (a b : JSVal) : JSVal := if toBoolean a then a else b

/-- The call `Number(v)`, that is ToNumber. -/
def toNumber : JSVal → JSNum
  | JSVal.undefined => JSNum.nan
  | JSVal.null => JSNum.fin 0
  | JSVal.bool b => if b then JSNum.fin 1 else JSNum.fin 0
  | JSVal.num x => x
  | JSVal.str s => strToNum s
  | JSVal.obj n _ => n

/-- ToPropertyKey: the string under which a value indexes an object. -/
def toPropertyKey : JSVal → String
  | JSVal.undefined => "undefined"
  | JSVal.null => "null"
  | JSVal.bool b => if b then "true" else "false"
  | JSVal.num x => numToString x
  | JSVal.str s => s
  | JSVal.obj _ s => s

/-- The property names every plain object inherits from `Object.prototype`. -/
def objectPrototypeKeys : List String :=
  ["constructor", "__defineGetter__", "__defineSetter__", "hasOwnProperty",
   "__lookupGetter__", "__lookupSetter__", "isPrototypeOf", "propertyIsEnumerable",
   "toString", "valueOf", "__proto__", "toLocaleString"]

/-- The member of `Object.prototype` found under an inherited name: a function
(or, for `__proto__`, the prototype itself); truthy, and NaN as a number. -/
def inherited (k : String) : JSVal :=
  JSVal.obj JSNum.nan
    (if k = "__proto__" then "[object Object]" else "function " ++ k ++ "() { [native code] }")

/-- A parsed row: the own properties of a plain object, in creation order.
The keys are the header names of the CSV. -/
abbrev Row := List (String × JSVal)

/-- Property read `row[k]`: the own property, else what `Object.prototype`
holds under that name, else `undefined`. -/
def getProp (row : Row) (k : String) : JSVal :=
  match row.lookup k with
  | some v => v
  | none => if k ∈ objectPrototypeKeys then inherited k else JSVal.undefined

/-- The array index a property key denotes, if it is one: a canonical decimal
integer below `2^32 - 1`. -/
def arrayIndex? (k : String) : Option Nat :=
  match readNat 10 k.data with
  | some n => if decDigits n = k.data ∧ n < 4294967295 then some n else none
  | none => none

/-- OrdinaryOwnPropertyKeys on string-keyed properties given in creation
order: array indices first, ascending, then the other keys as created. -/
def ownEntries {α : Type} (props : List (String × α)) : List (String × α) :=
  ((props.filterMap (fun p => (arrayIndex? p.1).map (fun i => (i, p)))).insertionSort
      (fun a b => a.1 ≤ b.1)).map (fun ip => ip.2)
    ++ props.filter (fun p => (arrayIndex? p.1).isNone)

/-- The call `Object.values(row)`. -/
def objectValues (row : Row) : List JSVal := (ownEntries row).map (fun p => p.2)

deriving instance DecidableEq for Except

/-! ## `fetchCSV` (App.js lines 12-28) -/

/-- What lines 13-19 meet: either `await fetch(...)` or `await response.text()`
rejects (a network failure, say), or the text of the response is parsed and
`results.data` reaches the `complete` callback.  `fetch` resolves for every
HTTP answer and lines 13-14 read neither `response.ok` nor `response.status`,
so an answer with an error status (a 404 page for a missing `datos.csv`) is
`parsed` too, with the rows `Papa.parse` makes of its body. -/
inductive Source where
  | unavailable : Source
  | parsed (data : List Row) : Source

/-- Lines 21-23: `results.data.filter((row) => row && Object.values(row).some(
(v) => v !== null && v !== ""))`.  A row is an object, hence truthy; against
`null` and `""` strict inequality is inequality of values. -/
def filtered (data : List Row) : List Row :=
  data.filter (fun row =>
    (objectValues row).any (fun v => v != JSVal.null && v != JSVal.str ""))

/-- The promise returned by `fetchCSV`: rejected when one of the two awaits
rejects, otherwise resolved with the filtered rows. -/
def fetchCSV : Source → Except String (List Row)
  | Source.unavailable => Except.error "fetch rejected"
  | Source.parsed data => Except.ok (filtered data)

/-! ## `SummaryTable` (App.js lines 42-48) -/

/-- Line 44: the tracked metrics. -/
def metrics : List String :=
  ["accuracy", "precision", "recall", "loss", "tiempo_entrenamiento"]

/-- Line 47, the reducer's summand `Number(row[m] || 0)`. -/
def summand (row : Row) (m : String) : JSNum :=
  toNumber (or (getProp row m) (JSVal.num (JSNum.fin 0)))

/-- Line 47, `data.reduce((acc, row) => acc + Number(row[m] || 0), 0)`. -/
def metricSum (data : List Row) (m : String) : JSNum :=
  data.foldl (fun acc row => add acc (summand row m)) (JSNum.fin 0)

/-- Line 47, the value stored in `summary[m]`. -/
def summaryCell (data : List Row) (m : String) : String :=
  toFixed (div (metricSum data m) (ofNat data.length)) 3

/-- Lines 45-48: the object `summary`, as its properties in creation order. -/
def SummaryTable (data : List Row) : List (String × String) :=
  metrics.map (fun m => (m, summaryCell data m))

/-! ## `groupByModel` (App.js lines 79-89) -/

/-- An element of the array `groupByModel` returns. -/
structure Entry where
  modelo : String
  promedio : String
  deriving DecidableEq

/-- The object `grouped`: own properties in creation order, each an array. -/
abbrev Grouped := List (String × List JSNum)

/-- The property key of `row.modelo`. -/
def modelKey (row : Row) : String := toPropertyKey (getProp row "modelo")

/-- Lines 82-83, one pass of the `forEach` callback.  When `grouped` has no own
property under the key but `Object.prototype` has one, `!grouped[key]` is
false and `grouped[key].push` is not a function: a TypeError is thrown. -/
def groupRow (metric : String) (grouped : Grouped) (row : Row) : Except String Grouped :=
  let key := modelKey row
  let v := toNumber (getProp row metric)
  match grouped.lookup key with
  | some _ => Except.ok (grouped.map (fun p => if p.1 = key then (p.1, p.2 ++ [v]) else p))
  | none =>
    if key ∈ objectPrototypeKeys then Except.error "TypeError"
    else Except.ok (grouped ++ [(key, [v])])

/-- Line 87: `(values.reduce((a, b) => a + b, 0) / values.length).toFixed(3)`. -/
def promedio (values : List JSNum) : String :=
  toFixed (div (values.foldl add (JSNum.fin 0)) (ofNat values.length)) 3

/-- Lines 79-89: `groupByModel(metric)` over the state `data`. -/
def groupByModel (data : List Row) (metric : String) : Except String (List Entry) :=
  match data.foldlM (groupRow metric) ([] : Grouped) with
  | Except.error e => Except.error e
  | Except.ok grouped =>
    Except.ok ((ownEntries grouped).map (fun p => ⟨p.1, promedio p.2⟩))

/-! ## `App` (App.js lines 71-104) -/

/-- Lines 72-76: the state `data` after the effect has run: `useState([])`
then `fetchCSV().then(setData)`, which calls `setData` only on fulfilment. -/
def appData (src : Source) : List Row :=
  match fetchCSV src with
  | Except.ok rows => rows
  | Except.error _ => []

/-- Line 98, the condition `data.length === 0` of the conditional: when it
holds `App` renders the "No se encontraron datos" notice (lines 99-103) in
place of the summary table, the charts and the table of rows (lines
105-176). -/
def noDataNotice (data : List Row) : Bool := decide (data.length = 0)
/-! ## Vocabulary of the specification -/

/-- A metric field that "holds a number or is blank/null/absent": a finite
number, the empty string, `null`, or no property at all. -/
def isNumOrBlank : JSVal → Bool
  | JSVal.undefined => true
  | JSVal.null => true
  | JSVal.str s => decide (s = "")
  | JSVal.num (JSNum.fin _) => true
  | JSVal.num JSNum.negZero => true
  | _ => false

/-- The rational a metric field stands for in the specification's mean: the
number it holds, and 0 when it is blank, null or absent. -/
def fieldValue : JSVal → ℚ
  | JSVal.num (JSNum.fin q) => q
  | _ => 0

/-- The arithmetic mean of a list of rationals. -/
def mean (vs : List ℚ) : ℚ := vs.sum / (vs.length : ℚ)

/-- A rational rounded to 3 decimal places (a tie goes away from zero) and
written with its sign, its integer part, a point and exactly three fractional
digits. -/
def decimal3 (q : ℚ) : String :=
  let t := nearestInt (|q| * 1000)
  String.mk ((if q < 0 then ['-'] else []) ++ decDigits (t / 1000) ++
    ['.', digitChar (t / 100 % 10), digitChar (t / 10 % 10), digitChar (t % 10)])

/-- Whether a Number is finite. -/
def JSNum.isFinite : JSNum → Bool
  | JSNum.negZero => true
  | JSNum.fin _ => true
  | _ => false

/-- The rational a finite Number denotes (0 for the others). -/
def JSNum.toRat : JSNum → ℚ
  | JSNum.fin q => q
  | _ => 0

/-- Every running sum `acc + v₁ + ... + vᵢ` is a binary64 value, so that no
addition rounds. -/
def exactSums : ℚ → List ℚ → Bool
  | _, [] => true
  | acc, v :: vs => decide (Exact (acc + v)) && exactSums (acc + v) vs

/-- Neither the left-to-right sum from 0 nor the division by the count
rounds. -/
def exactMean (vs : List ℚ) : Bool := exactSums 0 vs && decide (Exact (mean vs))

/-- The distinct elements of a list, each once, in the order in which each is
first met. -/
def firstEncounter : List String → List String
  | [] => []
  | k :: ks => k :: (firstEncounter ks).filter (fun x => decide (x ≠ k))

/-- The values `Number(row[metric])` of the records whose `modelo` has the
property key `k`, in input order. -/
def groupValues (data : List Row) (metric : String) (k : String) : List JSNum :=
  (data.filter (fun row => decide (modelKey row = k))).map
    (fun row => toNumber (getProp row metric))

/-- Whether a property key is an array index. -/
def isArrayIndex (k : String) : Bool := (arrayIndex? k).isSome

/-- A metric field that holds a finite number. -/
def isFiniteNum : JSVal → Bool
  | JSVal.num x => x.isFinite
  | _ => false

/-- The numbers held in field `metric` by the records whose `modelo` has the
property key `k`, in input order. -/
def groupRats (data : List Row) (metric : String) (k : String) : List ℚ :=
  (data.filter (fun row => decide (modelKey row = k))).map
    (fun row => fieldValue (getProp row metric))

/-- Drop a leading minus sign. -/
def dropMinus : List Char → List Char
  | '-' :: r => r
  | r => r

/-- A text that is a number written with three decimals: an optional minus
sign, one or more digits, a point, and exactly three digits. -/
def isThreeDecimals (s : String) : Bool :=
  let cs := dropMinus s.data
  let ip := cs.takeWhile Char.isDigit
  let rest := cs.dropWhile Char.isDigit
  !ip.isEmpty &&
    match rest with
    | ['.', a, b, c] => a.isDigit && b.isDigit && c.isDigit
    | _ => false

/-- A parsed row has a field that is neither `null` nor the empty string. -/
def HasValue (row : Row) : Prop := ∃ p ∈ row, p.2 ≠ JSVal.null ∧ p.2 ≠ JSVal.str ""

instance (row : Row) : Decidable (HasValue row) := by unfold HasValue; infer_instance

/-- Bound on the error of one binary64 rounding of a value of magnitude at
most `a`: half a unit in the last place of `a`, or of the least subnormal. -/
def roundErr (a : ℚ) : ℚ := a / 2 ^ 53 + 1 / 2 ^ 1075

/-- Bound on the distance between the binary64 running sum and the exact one
after adding `vs`, one by one, to an exact sum `acc` that the binary64 sum
matches within `e`: each addition adds the rounding error of a value of
magnitude at most `|exact sum| + error so far`. -/
def sumErr : ℚ → ℚ → List ℚ → ℚ
  | _, e, [] => e
  | acc, e, v :: vs => sumErr (acc + v) (e + roundErr (|acc + v| + e)) vs

/-- Bound on the distance between the binary64 mean (left-to-right sum from
0, then one division) and the exact mean of `vs`. -/
def meanErr (vs : List ℚ) : ℚ :=
  sumErr 0 0 vs / (vs.length : ℚ) + roundErr (|mean vs| + sumErr 0 0 vs / (vs.length : ℚ))

/-- The non-negative `t` lies more than `δ` away from the next rounding
boundary on either side: whatever is within `δ` of `t` has the same nearest
integer. -/
def clearOfTie (t δ : ℚ) : Bool :=
  decide ((nearestInt t : ℚ) + δ ≤ t + 1 / 2 ∧ t + 1 / 2 + δ < (nearestInt t : ℚ) + 1)

/-- Nothing rounds: the running sums and the quotient are binary64 values, and
the mean is below `10^21` in magnitude. -/
def noRounding (vs : List ℚ) : Bool := exactMean vs && decide (|mean vs| < 10 ^ 21)

/-- Rounding happens but cannot show: no running sum can overflow (the
magnitudes and the error bound add up to less than `2^1023`), the mean stays
below `10^21` in magnitude, its sign cannot flip (no value is negative, or the
mean is farther from 0 than the error bound), and the mean, in thousandths,
is farther from a rounding boundary than the error bound. -/
def safeMargin (vs : List ℚ) : Bool :=
  decide ((vs.map (fun v => |v|)).sum + sumErr 0 0 vs < 2 ^ 1023) &&
    decide (|mean vs| + meanErr vs < 10 ^ 21) &&
    (vs.all (fun v => decide (0 ≤ v)) || decide (meanErr vs < |mean vs|)) &&
    clearOfTie (|mean vs| * 1000) (meanErr vs * 1000)
/-! ## Sample records -/

/-- The record of scenario 1, `(1, 2024-01-01, CNN, MNIST, 0.9, 0.8, 0.85, 0.2,
120)`, each decimal read as the nearest binary64 value. -/
def scenario1 : Row :=
  [("id", JSVal.num (roundQ 1)), ("fecha", JSVal.str "2024-01-01"),
   ("modelo", JSVal.str "CNN"), ("dataset", JSVal.str "MNIST"),
   ("accuracy", JSVal.num (roundQ (9 / 10))), ("precision", JSVal.num (roundQ (8 / 10))),
   ("recall", JSVal.num (roundQ (85 / 100))), ("loss", JSVal.num (roundQ (2 / 10))),
   ("tiempo_entrenamiento", JSVal.num (roundQ 120))]

/-- A record with a model label and an accuracy. -/
def sample (modelo : JSVal) (accuracy : ℚ) : Row :=
  [("modelo", modelo), ("accuracy", JSVal.num (JSNum.fin accuracy))]

/-- Five records of one model with accuracies 0.1875, 0, 0, 0, 0 (all binary64
values); their mean is exactly 0.0375. -/
def fiveRuns : List Row :=
  [sample (JSVal.str "CNN") (3 / 16), sample (JSVal.str "CNN") 0, sample (JSVal.str "CNN") 0,
   sample (JSVal.str "CNN") 0, sample (JSVal.str "CNN") 0]

/-- The records of scenario 2: two CNN runs with accuracies 0.8 and 0.6 and
one RNN run with accuracy 1.0, each decimal read as the nearest binary64. -/
def scenario2 : List Row :=
  [[("modelo", JSVal.str "CNN"), ("accuracy", JSVal.num (roundQ (8 / 10)))],
   [("modelo", JSVal.str "CNN"), ("accuracy", JSVal.num (roundQ (6 / 10)))],
   [("modelo", JSVal.str "RNN"), ("accuracy", JSVal.num (roundQ 1))]]

/-- Two CNN records with losses -0.1 and -0.2, each decimal read as the
nearest binary64 value. -/
def negativeLosses : List Row :=
  [[("modelo", JSVal.str "CNN"), ("loss", JSVal.num (roundQ (-1 / 10)))],
   [("modelo", JSVal.str "CNN"), ("loss", JSVal.num (roundQ (-2 / 10)))]]

/-- The five CNN records of `fiveRuns` followed by two RNN records with
accuracies 0.8 and 0.6, each decimal read as the nearest binary64 value. -/
def twoGroups : List Row :=
  fiveRuns ++
    [[("modelo", JSVal.str "RNN"), ("accuracy", JSVal.num (roundQ (8 / 10)))],
     [("modelo", JSVal.str "RNN"), ("accuracy", JSVal.num (roundQ (6 / 10)))]]

/-- Four records of one model with accuracies `2^1023`, `2^1023`, `-2^1023`,
`-2^1023` (all binary64 values); their mean is exactly 0. -/
def overflowRuns : List Row :=
  [sample (JSVal.str "CNN") (2 ^ 1023), sample (JSVal.str "CNN") (2 ^ 1023),
   sample (JSVal.str "CNN") (-(2 ^ 1023)), sample (JSVal.str "CNN") (-(2 ^ 1023))]

/-- Four records of one model with accuracies `2^33`, `2^-20`, `-2^33`,
`-2^-21` (all binary64 values); their mean is exactly `2^-23`. -/
def cancellingRuns : List Row :=
  [sample (JSVal.str "CNN") (2 ^ 33), sample (JSVal.str "CNN") (1 / 2 ^ 20),
   sample (JSVal.str "CNN") (-(2 ^ 33)), sample (JSVal.str "CNN") (-(1 / 2 ^ 21))]

/-- Two records whose model labels are the numbers 2 and 1, in that order. -/
def numericLabels : List Row :=
  [sample (JSVal.num (JSNum.fin 2)) (1 / 2), sample (JSVal.num (JSNum.fin 1)) (1 / 4)]

/-- One record whose model label is the text `constructor`. -/
def inheritedLabel : List Row := [sample (JSVal.str "constructor") (1 / 2)]

/-- Labels met in the order RNN, 7, CNN, 3, RNN. -/
def mixedLabels : List Row :=
  [sample (JSVal.str "RNN") 1, sample (JSVal.num (JSNum.fin 7)) (1 / 2),
   sample (JSVal.str "CNN") (1 / 4), sample (JSVal.num (JSNum.fin 3)) (1 / 2),
   sample (JSVal.str "RNN") (1 / 2)]

/-- A record without a `modelo` field (accuracy 1) followed by a record whose
`modelo` is the text `undefined` (accuracy 0). -/
def absentAndText : List Row :=
  [[("accuracy", JSVal.num (JSNum.fin 1))], sample (JSVal.str "undefined") 0]

/-- A record whose `loss` is the text `abc`. -/
def textLoss : Row := [("modelo", JSVal.str "CNN"), ("loss", JSVal.str "abc")]

/-- A record whose `loss` is blank (the parser's `null`). -/
def blankLoss : Row := [("modelo", JSVal.str "CNN"), ("loss", JSVal.null)]

/-- A row cut short after `modelo`: the metric columns are absent. -/
def shortRow : Row := [("id", JSVal.num (JSNum.fin 1)), ("modelo", JSVal.str "CNN")]

/-- A record whose `accuracy` is the text `Infinity`. -/
def infiniteAccuracy : Row := [("modelo", JSVal.str "CNN"), ("accuracy", JSVal.str "Infinity")]

/-! ## Theorems -/
theorem decDigitsAux_eq (fuel : Nat) :
    ∀ (n : Nat) (acc : List Char), n < fuel →
      decDigitsAux fuel n acc = decDigitsAux (n + 1) n [] ++ acc := by
  induction fuel using Nat.strong_induction_on with
  | _ fuel ih =>
    intro n acc hn
    cases fuel with
    | zero => omega
    | succ f =>
      by_cases h10 : n < 10
      · simp [decDigitsAux, h10]
      · have hdiv : n / 10 < n := Nat.div_lt_self (by omega) (by omega)
        have e1 : decDigitsAux (f + 1) n acc
            = decDigitsAux f (n / 10) (digitChar (n % 10) :: acc) := by
          simp [decDigitsAux, h10]
        have e2 : decDigitsAux (n + 1) n []
            = decDigitsAux n (n / 10) [digitChar (n % 10)] := by
          simp [decDigitsAux, h10]
        rw [e1, e2, ih f (by omega) (n / 10) _ (by omega),
          ih n (by omega) (n / 10) _ hdiv]
        simp

theorem decDigits_lt (n : Nat) (h : n < 10) : decDigits n = [digitChar n] := by
  simp [decDigits, decDigitsAux, h]

theorem decDigits_ge (n : Nat) (h : 10 ≤ n) :
    decDigits n = decDigits (n / 10) ++ [digitChar (n % 10)] := by
  have h10 : ¬ n < 10 := by omega
  have hdiv : n / 10 < n := Nat.div_lt_self (by omega) (by omega)
  unfold decDigits
  have e2 : decDigitsAux (n + 1) n []
      = decDigitsAux n (n / 10) [digitChar (n % 10)] := by
    simp [decDigitsAux, h10]
  rw [e2, decDigitsAux_eq n (n / 10) _ hdiv]

theorem decDigits_length_pos (n : Nat) : 0 < (decDigits n).length := by
  by_cases h : n < 10
  · simp [decDigits_lt n h]
  · rw [decDigits_ge n (by omega)]; simp

theorem fixedDigits_three (t : Nat) :
    fixedDigits t 3 = decDigits (t / 1000) ++
      ['.', digitChar (t / 100 % 10), digitChar (t / 10 % 10), digitChar (t % 10)] := by
  have z : digitChar 0 = '0' := by decide
  have a5 : t / 10 / 10 = t / 100 := by omega
  have a6 : t / 100 / 10 = t / 1000 := by omega
  by_cases h1 : t < 10
  · have a1 : t / 1000 = 0 := by omega
    have a2 : t / 100 % 10 = 0 := by omega
    have a3 : t / 10 % 10 = 0 := by omega
    have a4 : t % 10 = t := by omega
    rw [a1, a2, a3, a4]
    simp [fixedDigits, decDigits_lt t h1, decDigits_lt 0 (by omega), z, List.replicate]
  · by_cases h2 : t < 100
    · have a1 : t / 1000 = 0 := by omega
      have a2 : t / 100 % 10 = 0 := by omega
      have a3 : t / 10 % 10 = t / 10 := by omega
      rw [a1, a2, a3]
      simp [fixedDigits, decDigits_ge t (by omega), decDigits_lt (t / 10) (by omega),
        decDigits_lt 0 (by omega), z, List.replicate]
    · by_cases h3 : t < 1000
      · have a1 : t / 1000 = 0 := by omega
        have a2 : t / 100 % 10 = t / 100 := by omega
        have e : decDigits t =
            [digitChar (t / 100), digitChar (t / 10 % 10), digitChar (t % 10)] := by
          rw [decDigits_ge t (by omega), decDigits_ge (t / 10) (by omega), a5,
            decDigits_lt (t / 100) (by omega)]
          simp
        rw [a1, a2]
        simp [fixedDigits, e, decDigits_lt 0 (by omega), z, List.replicate]
      · have hl := decDigits_length_pos (t / 1000)
        have e : decDigits t = decDigits (t / 1000) ++
            [digitChar (t / 100 % 10), digitChar (t / 10 % 10), digitChar (t % 10)] := by
          rw [decDigits_ge t (by omega), decDigits_ge (t / 10) (by omega), a5,
            decDigits_ge (t / 100) (by omega), a6]
          simp
        unfold fixedDigits
        rw [e]
        have hlen : ¬ ((decDigits (t / 1000) ++
            [digitChar (t / 100 % 10), digitChar (t / 10 % 10), digitChar (t % 10)]).length ≤ 3) := by
          simp only [List.length_append, List.length_cons, List.length_nil]; omega
        simp only [hlen, if_false]
        simp

theorem log2Aux_spec (fuel : Nat) :
    ∀ n, 0 < n → n ≤ fuel →
      2 ^ log2Aux fuel n ≤ n ∧ n < 2 ^ (log2Aux fuel n + 1) := by
  induction fuel with
  | zero => intro n h0 h1; omega
  | succ f ih =>
    intro n h0 h1
    by_cases h2 : 2 ≤ n
    · have hh := ih (n / 2) (by omega) (by omega)
      have e : log2Aux (f + 1) n = log2Aux f (n / 2) + 1 := by simp [log2Aux, h2]
      rw [e]
      obtain ⟨ha, hb⟩ := hh
      constructor
      · rw [pow_succ]; omega
      · rw [pow_succ]; omega
    · have e : log2Aux (f + 1) n = 0 := by simp [log2Aux, h2]
      rw [e]
      constructor <;> simp <;> omega

theorem log2_spec (n : Nat) (h : 0 < n) : 2 ^ log2 n ≤ n ∧ n < 2 ^ (log2 n + 1) :=
  log2Aux_spec n n h (le_refl n)

theorem log2_one : log2 1 = 0 := by decide

theorem roundHalfEven_one (n : Nat) : roundHalfEven n 1 = n := by
  simp [roundHalfEven, Nat.mod_one]

theorem roundQ_natCast (n : Nat) (h : n < 2 ^ 53) : roundQ (n : ℚ) = JSNum.fin (n : ℚ) := by
  by_cases h0 : n = 0
  · subst h0; simp [roundQ]
  · have hpos : 0 < n := Nat.pos_of_ne_zero h0
    obtain ⟨hl1, hl2⟩ := log2_spec n hpos
    have hl52 : log2 n ≤ 52 := by
      by_contra hc
      have : 2 ^ 53 ≤ 2 ^ log2 n := Nat.pow_le_pow_right (by norm_num) (by omega)
      omega
    have hq : ((n : ℚ) = 0) = False := by simp [h0]
    have hfl : floorLog2 n 1 = (log2 n : Int) := by
      simp [floorLog2, log2_one, hl1]
    unfold roundQ
    simp only [hq, if_false, Rat.num_natCast, Rat.den_natCast, Int.natAbs_ofNat, hfl]
    have he : max ((log2 n : Int) - 52) (-1074) = (log2 n : Int) - 52 := by omega
    rw [he]
    have h972 : ¬ ((972 : Int) ≤ (log2 n : Int) - 52) := by omega
    have hneg : ¬ ((n : Int) < 0) := by omega
    simp only [h972, if_false, hneg, decide_False, Bool.false_eq_true]
    by_cases hz : log2 n = 52
    · simp [hz, scale2, h0, roundHalfEven_one]
    · have hlt : ¬ ((0 : Int) ≤ (log2 n : Int) - 52) := by omega
      have hto : (-((log2 n : Int) - 52)).toNat = 52 - log2 n := by omega
      have h971 : ¬ ((log2 n : Int) - 52 = 971) := by omega
      have hp : (2 : ℚ) ^ (52 - log2 n) ≠ 0 := pow_ne_zero _ (by norm_num)
      simp [hlt, hto, scale2, h0, h971, roundHalfEven_one, mul_div_assoc, div_self hp]

theorem ofNat_eq (n : Nat) (h : n < 2 ^ 32) : ofNat n = JSNum.fin (n : ℚ) :=
  roundQ_natCast n (by have : (2:Nat) ^ 32 < 2 ^ 53 := by norm_num
                       omega)

theorem roundQ_zero : roundQ 0 = JSNum.fin 0 := by simp [roundQ]

theorem add_fin_fin (a b : ℚ) : add (JSNum.fin a) (JSNum.fin b) = roundQ (a + b) := by
  by_cases h : a + b = 0
  · simp [add, h, roundQ_zero]
  · simp [add, h]

theorem add_fin_exact (a : ℚ) (x : JSNum) (hx : x.isFinite = true)
    (he : Exact (a + x.toRat)) : add (JSNum.fin a) x = JSNum.fin (a + x.toRat) := by
  cases x with
  | nan => simp [JSNum.isFinite] at hx
  | inf b => simp [JSNum.isFinite] at hx
  | negZero => simp [add, JSNum.toRat]
  | fin q =>
    rw [add_fin_fin]
    exact he

theorem foldl_add_exact (xs : List JSNum) :
    ∀ acc : ℚ, (∀ x ∈ xs, x.isFinite = true) →
      exactSums acc (xs.map JSNum.toRat) = true →
      xs.foldl add (JSNum.fin acc) = JSNum.fin (acc + (xs.map JSNum.toRat).sum) := by
  induction xs with
  | nil => intro acc _ _; simp
  | cons x xs ih =>
    intro acc hfin hex
    simp only [List.map_cons, exactSums, Bool.and_eq_true, decide_eq_true_eq] at hex
    obtain ⟨h1, h2⟩ := hex
    rw [List.foldl_cons, add_fin_exact acc x (hfin x (List.mem_cons_self _ _)) h1,
      ih _ (fun y hy => hfin y (List.mem_cons_of_mem _ hy)) h2]
    simp [add_assoc]

/-- When nothing rounds, the left-to-right binary64 sum divided by the count is
the exact mean. -/
theorem div_sum_exact (xs : List JSNum) (hne : xs ≠ []) (hlen : xs.length < 2 ^ 32)
    (hfin : ∀ x ∈ xs, x.isFinite = true)
    (hex : exactMean (xs.map JSNum.toRat) = true) :
    div (xs.foldl add (JSNum.fin 0)) (ofNat xs.length)
      = JSNum.fin (mean (xs.map JSNum.toRat)) := by
  simp only [exactMean, Bool.and_eq_true, decide_eq_true_eq] at hex
  obtain ⟨h1, h2⟩ := hex
  rw [foldl_add_exact xs 0 hfin h1, ofNat_eq _ hlen]
  have hn : (xs.length : ℚ) ≠ 0 := by
    simp [hne]
  simp only [zero_add]
  unfold Exact mean at h2
  simp only [List.length_map] at h2
  unfold mean
  simp only [List.length_map]
  by_cases hs : (xs.map JSNum.toRat).sum = 0
  · simp [div, JSNum.toRat?, hn, hs, signedZero, JSNum.isNeg]
  · simp only [div, JSNum.toRat?, hn, hs, if_false]
    exact h2

theorem toFixed_fin (q : ℚ) (h : |q| < 10 ^ 21) : toFixed (JSNum.fin q) 3 = decimal3 q := by
  have hb : ¬ ((10 : ℚ) ^ 21 ≤ |q|) := not_le.mpr h
  unfold toFixed decimal3
  simp only [hb, if_false]
  by_cases hq : q < 0
  · have e : -q * 10 ^ 3 = |q| * 1000 := by rw [abs_of_neg hq]; norm_num
    simp only [hq, if_true, e, fixedDigits_three]
    simp
  · have e : q * 10 ^ 3 = |q| * 1000 := by rw [abs_of_nonneg (not_lt.mp hq)]; norm_num
    simp only [hq, if_false, e, fixedDigits_three]
    simp

/-- The numbers held by the sample records are binary64 values. -/
theorem samples_are_binary64 :
    Exact (3 / 16) ∧ Exact 0 ∧ Exact 1 ∧ Exact 2 ∧ Exact 3 ∧ Exact 7 ∧ Exact (1 / 2) ∧
      Exact (1 / 4) ∧ Exact (2 ^ 1023) ∧ Exact (-(2 ^ 1023)) ∧ Exact (2 ^ 33) ∧
      Exact (1 / 2 ^ 20) ∧ Exact (-(2 ^ 33)) ∧ Exact (-(1 / 2 ^ 21)) := by
  decide!

theorem summand_of_numOrBlank (row : Row) (m : String)
    (h : isNumOrBlank (getProp row m) = true) :
    (summand row m).isFinite = true ∧ (summand row m).toRat = fieldValue (getProp row m) := by
  unfold summand
  generalize getProp row m = v at h
  cases v with
  | undefined => simp [or, toBoolean, toNumber, JSNum.isFinite, JSNum.toRat, fieldValue]
  | null => simp [or, toBoolean, toNumber, JSNum.isFinite, JSNum.toRat, fieldValue]
  | bool b => simp [isNumOrBlank] at h
  | str s =>
    simp only [isNumOrBlank, decide_eq_true_eq] at h
    subst h
    simp [or, toBoolean, toNumber, JSNum.isFinite, JSNum.toRat, fieldValue]
  | obj a b => simp [isNumOrBlank] at h
  | num x =>
    cases x with
    | nan => simp [isNumOrBlank] at h
    | inf b => simp [isNumOrBlank] at h
    | negZero => simp [or, toBoolean, toNumber, JSNum.isFinite, JSNum.toRat, fieldValue]
    | fin q =>
      by_cases hq : q = 0
      · simp [or, toBoolean, toNumber, JSNum.isFinite, JSNum.toRat, fieldValue, hq]
      · simp [or, toBoolean, toNumber, JSNum.isFinite, JSNum.toRat, fieldValue, hq]

theorem summaryCell_eq (data : List Row) (m : String) :
    summaryCell data m =
      toFixed (div ((data.map (fun row => summand row m)).foldl add (JSNum.fin 0))
        (ofNat (data.map (fun row => summand row m)).length)) 3 := by
  simp [summaryCell, metricSum, List.foldl_map]

theorem lookup_SummaryTable (data : List Row) (m : String) (hm : m ∈ metrics) :
    (SummaryTable data).lookup m = some (summaryCell data m) := by
  simp only [metrics, List.mem_cons, List.mem_singleton, List.not_mem_nil, or_false] at hm
  rcases hm with rfl | rfl | rfl | rfl | rfl <;>
    simp [SummaryTable, metrics, List.lookup]

theorem lookup_eq_none_iff_keys {β : Type} (g : List (String × β)) (k : String) :
    g.lookup k = none ↔ k ∉ g.map (fun p => p.1) := by
  induction g with
  | nil => simp
  | cons p g ih =>
    obtain ⟨a, b⟩ := p
    by_cases h : k = a
    · subst h; simp [List.lookup]
    · have h' : (k == a) = false := by simpa using h
      simp [List.lookup, h', ih, h]

theorem groupValues_cons_eq (row : Row) (rest : List Row) (metric : String) :
    groupValues (row :: rest) metric (modelKey row)
      = toNumber (getProp row metric) :: groupValues rest metric (modelKey row) := by
  simp [groupValues, List.filter]

theorem groupValues_cons_ne (row : Row) (rest : List Row) (metric k : String)
    (h : modelKey row ≠ k) :
    groupValues (row :: rest) metric k = groupValues rest metric k := by
  simp [groupValues, List.filter, h]

theorem foldlM_groupRow (metric : String) (data : List Row) :
    ∀ g : Grouped, (∀ row ∈ data, modelKey row ∉ objectPrototypeKeys) →
      data.foldlM (groupRow metric) g
        = Except.ok (g.map (fun p => (p.1, p.2 ++ groupValues data metric p.1))
            ++ ((firstEncounter (data.map modelKey)).filter
                  (fun k => decide (k ∉ g.map (fun p => p.1)))).map
                (fun k => (k, groupValues data metric k))) := by
  induction data with
  | nil =>
    intro g _
    simp [groupValues, firstEncounter]
    rfl
  | cons row rest ih =>
    intro g hp
    have hk : modelKey row ∉ objectPrototypeKeys := hp row (List.mem_cons_self _ _)
    have hrest : ∀ r ∈ rest, modelKey r ∉ objectPrototypeKeys :=
      fun r hr => hp r (List.mem_cons_of_mem _ hr)
    rw [List.foldlM_cons]
    cases hl : g.lookup (modelKey row) with
    | some vs =>
      have hmem : modelKey row ∈ g.map (fun p => p.1) := by
        by_contra hc
        rw [(lookup_eq_none_iff_keys g _).mpr hc] at hl
        cases hl
      have hstep : groupRow metric g row = Except.ok
          (g.map (fun p => if p.1 = modelKey row
            then (p.1, p.2 ++ [toNumber (getProp row metric)]) else p)) := by
        simp [groupRow, hl]
      rw [hstep]
      show List.foldlM (groupRow metric) _ rest = _
      rw [ih _ hrest]
      congr 1
      congr 1
      · rw [List.map_map]
        apply List.map_congr_left
        intro p hpg
        by_cases hpk : p.1 = modelKey row
        · simp only [Function.comp, hpk, if_true]
          rw [groupValues_cons_eq]
          simp
        · simp only [Function.comp, hpk, if_false]
          rw [groupValues_cons_ne _ _ _ _ (Ne.symm hpk)]
      · have hkeys : (g.map (fun p => if p.1 = modelKey row
            then (p.1, p.2 ++ [toNumber (getProp row metric)]) else p)).map (fun p => p.1)
            = g.map (fun p => p.1) := by
          rw [List.map_map]
          apply List.map_congr_left
          intro p _
          by_cases hpk : p.1 = modelKey row <;> simp [hpk]
        rw [hkeys]
        simp only [List.map_cons, firstEncounter, List.filter_cons, hmem, not_true_eq_false,
          decide_False, Bool.false_eq_true, if_false, List.filter_filter]
        have hf : List.filter (fun a => decide (a ∉ g.map (fun p => p.1)) && decide (a ≠ modelKey row))
              (firstEncounter (List.map modelKey rest))
            = List.filter (fun k => decide (k ∉ g.map (fun p => p.1)))
              (firstEncounter (List.map modelKey rest)) := by
          apply List.filter_congr
          intro k _
          by_cases hkk : k = modelKey row
          · subst hkk; simp [hmem]
          · simp [hkk]
        rw [hf]
        apply List.map_congr_left
        intro k hkf
        have : k ≠ modelKey row := by
          intro hc
          subst hc
          simp [hmem] at hkf
        rw [groupValues_cons_ne _ _ _ _ (Ne.symm this)]
    | none =>
      have hmem : modelKey row ∉ g.map (fun p => p.1) := (lookup_eq_none_iff_keys g _).mp hl
      have hstep : groupRow metric g row = Except.ok
          (g ++ [(modelKey row, [toNumber (getProp row metric)])]) := by
        simp [groupRow, hl, hk]
      rw [hstep]
      show List.foldlM (groupRow metric) _ rest = _
      rw [ih _ hrest]
      congr 1
      simp only [List.map_append, List.map_cons, List.map_nil, List.append_assoc,
        List.singleton_append, firstEncounter, List.filter_cons, hmem, not_false_eq_true,
        decide_True, if_true, List.filter_filter, List.nil_append]
      congr 1
      · apply List.map_congr_left
        intro p hpg
        have hpk : modelKey row ≠ p.1 := by
          intro hc
          apply hmem
          rw [hc]
          exact List.mem_map_of_mem _ hpg
        rw [groupValues_cons_ne _ _ _ _ hpk]
      · rw [groupValues_cons_eq]
        congr 1
        have hf : List.filter (fun k => decide (k ∉ g.map (fun p => p.1) ++ [modelKey row]))
              (firstEncounter (List.map modelKey rest))
            = List.filter (fun a => decide (a ∉ g.map (fun p => p.1)) && decide (a ≠ modelKey row))
              (firstEncounter (List.map modelKey rest)) := by
          apply List.filter_congr
          intro k _
          by_cases h1 : k ∈ g.map (fun p => p.1) <;> by_cases h2 : k = modelKey row <;>
            simp [h1, h2]
        rw [hf]
        apply List.map_congr_left
        intro k hkf
        have : k ≠ modelKey row := by
          intro hc
          subst hc
          simp at hkf
        rw [groupValues_cons_ne _ _ _ _ (Ne.symm this)]

theorem arrayIndex?_inj {a b : String} {n : Nat}
    (ha : arrayIndex? a = some n) (hb : arrayIndex? b = some n) : a = b := by
  have key : ∀ k : String, arrayIndex? k = some n → decDigits n = k.data := by
    intro k hk
    unfold arrayIndex? at hk
    split at hk
    · rename_i m hm
      split at hk
      · rename_i hc
        cases hk
        exact hc.1
      · cases hk
    · cases hk
  have h1 := key a ha
  have h2 := key b hb
  exact String.ext (h1.symm.trans h2)

theorem filterMap_index_snd {α : Type} (l : List (String × α)) :
    (l.filterMap (fun p => (arrayIndex? p.1).map (fun i => (i, p)))).map (fun ip => ip.2)
      = l.filter (fun p => (arrayIndex? p.1).isSome) := by
  induction l with
  | nil => rfl
  | cons p l ih =>
    cases h : arrayIndex? p.1 with
    | none => simp [List.filterMap_cons, List.filter_cons, h, ih]
    | some i => simp [List.filterMap_cons, List.filter_cons, h, ih]

theorem mem_filterMap_index {α : Type} (l : List (String × α)) (ip : Nat × (String × α))
    (h : ip ∈ l.filterMap (fun p => (arrayIndex? p.1).map (fun i => (i, p)))) :
    arrayIndex? ip.2.1 = some ip.1 ∧ ip.2 ∈ l := by
  rw [List.mem_filterMap] at h
  obtain ⟨p, hp, hpe⟩ := h
  cases hi : arrayIndex? p.1 with
  | none => simp [hi] at hpe
  | some i =>
    simp [hi] at hpe
    subst hpe
    exact ⟨hi, hp⟩

theorem ownEntries_perm {α : Type} (l : List (String × α)) : (ownEntries l).Perm l := by
  unfold ownEntries
  have h1 : ((l.filterMap (fun p => (arrayIndex? p.1).map (fun i => (i, p)))).insertionSort
      (fun a b => a.1 ≤ b.1)).map (fun ip => ip.2)
      |>.Perm (l.filter (fun p => (arrayIndex? p.1).isSome)) := by
    rw [← filterMap_index_snd]
    exact (List.perm_insertionSort _ _).map _
  have h2 : (l.filter (fun p => (arrayIndex? p.1).isSome)
      ++ l.filter (fun p => (arrayIndex? p.1).isNone)).Perm l := by
    have := List.filter_append_perm (fun p : String × α => (arrayIndex? p.1).isSome) l
    have e : (fun p : String × α => (arrayIndex? p.1).isNone)
        = (fun p : String × α => !(arrayIndex? p.1).isSome) := by
      funext p
      cases arrayIndex? p.1 <;> rfl
    rw [e]
    simpa using this
  exact (h1.append_right _).trans h2

theorem filterMap_index_keys {α : Type} (T : List (Nat × (String × α)))
    (h : ∀ ip ∈ T, arrayIndex? ip.2.1 = some ip.1) :
    ((T.map (fun ip => ip.2)).map (fun p => p.1)).filterMap arrayIndex?
      = T.map (fun ip => ip.1) := by
  induction T with
  | nil => rfl
  | cons ip T ih =>
    have h1 := h ip (List.mem_cons_self _ _)
    have h2 := ih (fun jp hj => h jp (List.mem_cons_of_mem _ hj))
    simp only [List.map_cons, List.filterMap_cons, h1, h2]

theorem filterMap_index_none (ks : List String) (h : ∀ k ∈ ks, isArrayIndex k = false) :
    ks.filterMap arrayIndex? = [] := by
  induction ks with
  | nil => rfl
  | cons k ks ih =>
    have h1 : arrayIndex? k = none := by
      have := h k (List.mem_cons_self _ _)
      unfold isArrayIndex at this
      cases hk : arrayIndex? k with
      | none => rfl
      | some n => simp [hk] at this
    simp only [List.filterMap_cons, h1, ih (fun j hj => h j (List.mem_cons_of_mem _ hj))]

theorem ownEntries_keys {α : Type} (l : List (String × α))
    (hnd : (l.map (fun p => p.1)).Nodup) :
    ((ownEntries l).map (fun p => p.1)).Perm (l.map (fun p => p.1)) ∧
    (ownEntries l).map (fun p => p.1)
      = ((ownEntries l).map (fun p => p.1)).filter isArrayIndex
        ++ ((ownEntries l).map (fun p => p.1)).filter (fun k => !isArrayIndex k) ∧
    (((ownEntries l).map (fun p => p.1)).filterMap arrayIndex?).Sorted (fun a b => a < b) ∧
    ((ownEntries l).map (fun p => p.1)).filter (fun k => !isArrayIndex k)
      = (l.map (fun p => p.1)).filter (fun k => !isArrayIndex k) := by
  have hperm := (ownEntries_perm l).map (fun p => p.1)
  refine ⟨hperm, ?_⟩
  generalize hF : l.filterMap (fun p => (arrayIndex? p.1).map (fun i => (i, p))) = F at *
  generalize hT : F.insertionSort (fun a b => a.1 ≤ b.1) = T at *
  have hTmem : ∀ ip ∈ T, arrayIndex? ip.2.1 = some ip.1 ∧ ip.2 ∈ l := by
    intro ip hip
    apply mem_filterMap_index l ip
    rw [hF]
    rw [← hT] at hip
    exact (List.mem_insertionSort _).mp hip
  have hown : (ownEntries l).map (fun p => p.1)
      = (T.map (fun ip => ip.2)).map (fun p => p.1)
        ++ (l.filter (fun p => (arrayIndex? p.1).isNone)).map (fun p => p.1) := by
    simp only [ownEntries, hF, hT, List.map_append]
  have fA : ∀ k ∈ (T.map (fun ip => ip.2)).map (fun p => p.1), isArrayIndex k = true := by
    intro k hk
    simp only [List.mem_map] at hk
    obtain ⟨p, ⟨ip, hip, rfl⟩, rfl⟩ := hk
    simp [isArrayIndex, (hTmem ip hip).1]
  have fB : ∀ k ∈ (l.filter (fun p => (arrayIndex? p.1).isNone)).map (fun p => p.1),
      isArrayIndex k = false := by
    intro k hk
    simp only [List.mem_map, List.mem_filter] at hk
    obtain ⟨p, ⟨_, hp⟩, rfl⟩ := hk
    unfold isArrayIndex
    cases h : arrayIndex? p.1 with
    | none => rfl
    | some n => simp [h] at hp
  have eA : ((ownEntries l).map (fun p => p.1)).filter isArrayIndex
      = (T.map (fun ip => ip.2)).map (fun p => p.1) := by
    rw [hown, List.filter_append, List.filter_eq_self.mpr fA,
      List.filter_eq_nil_iff.mpr (fun k hk => by simp [fB k hk]), List.append_nil]
  have eB : ((ownEntries l).map (fun p => p.1)).filter (fun k => !isArrayIndex k)
      = (l.filter (fun p => (arrayIndex? p.1).isNone)).map (fun p => p.1) := by
    rw [hown, List.filter_append, List.filter_eq_nil_iff.mpr (fun k hk => by simp [fA k hk]),
      List.filter_eq_self.mpr (fun k hk => by simp [fB k hk]), List.nil_append]
  refine ⟨?_, ?_, ?_⟩
  · rw [eA, eB]; exact hown
  · rw [hown, List.filterMap_append, filterMap_index_keys T (fun ip hip => (hTmem ip hip).1),
      filterMap_index_none _ fB, List.append_nil]
    have hs : List.Sorted (fun a b : Nat × (String × α) => a.1 ≤ b.1) T := by
      rw [← hT]
      haveI : IsTotal (Nat × (String × α)) (fun a b => a.1 ≤ b.1) :=
        ⟨fun a b => Nat.le_total a.1 b.1⟩
      haveI : IsTrans (Nat × (String × α)) (fun a b => a.1 ≤ b.1) :=
        ⟨fun a b c hab hbc => Nat.le_trans hab hbc⟩
      exact List.sorted_insertionSort _ _
    have hkn : ((T.map (fun ip => ip.2)).map (fun p => p.1)).Nodup := by
      have hsub : ((ownEntries l).map (fun p => p.1)).Nodup := hperm.nodup_iff.mpr hnd
      rw [hown] at hsub
      exact (List.nodup_append.mp hsub).1
    have hpk : List.Pairwise (fun a b : Nat × (String × α) => a.2.1 ≠ b.2.1) T := by
      rw [List.map_map] at hkn
      exact List.pairwise_map.mp hkn
    have hlt : List.Pairwise (fun a b : Nat × (String × α) => a.1 < b.1) T := by
      have hboth := hs.and hpk
      refine List.Pairwise.imp_of_mem ?_ hboth
      intro a b ha hb hab
      obtain ⟨hle, hne⟩ := hab
      rcases Nat.lt_or_eq_of_le hle with hlt | heq
      · exact hlt
      · exfalso
        apply hne
        have h1 := (hTmem a ha).1
        have h2 := (hTmem b hb).1
        rw [← heq] at h2
        exact arrayIndex?_inj h1 h2
    exact List.pairwise_map.mpr hlt
  · rw [eB, List.filter_map]
    congr 1
    apply List.filter_congr
    intro p _
    simp only [Function.comp, isArrayIndex]
    cases arrayIndex? p.1 <;> rfl

theorem mem_firstEncounter (l : List String) (k : String) :
    k ∈ firstEncounter l ↔ k ∈ l := by
  induction l with
  | nil => simp [firstEncounter]
  | cons a l ih =>
    by_cases h : k = a
    · simp [firstEncounter, h]
    · simp [firstEncounter, h, ih]

theorem nodup_firstEncounter (l : List String) : (firstEncounter l).Nodup := by
  induction l with
  | nil => simp [firstEncounter]
  | cons a l ih =>
    simp only [firstEncounter, List.nodup_cons]
    exact ⟨by simp, ih.filter _⟩

theorem groupByModel_eq (data : List Row) (metric : String)
    (hp : ∀ row ∈ data, modelKey row ∉ objectPrototypeKeys) :
    groupByModel data metric = Except.ok
      ((ownEntries ((firstEncounter (data.map modelKey)).map
          (fun k => (k, groupValues data metric k)))).map
        (fun p => (⟨p.1, promedio p.2⟩ : Entry))) := by
  unfold groupByModel
  rw [foldlM_groupRow metric data [] hp]
  simp

theorem labels_of_entries (data : List Row) (metric : String) :
    (((ownEntries ((firstEncounter (data.map modelKey)).map
          (fun k => (k, groupValues data metric k)))).map
        (fun p => (⟨p.1, promedio p.2⟩ : Entry))).map Entry.modelo)
      = (ownEntries ((firstEncounter (data.map modelKey)).map
          (fun k => (k, groupValues data metric k)))).map (fun p => p.1) := by
  rw [List.map_map]
  rfl

theorem keys_firstEncounter_map (data : List Row) (metric : String) :
    ((firstEncounter (data.map modelKey)).map
        (fun k => (k, groupValues data metric k))).map (fun p => p.1)
      = firstEncounter (data.map modelKey) := by
  rw [List.map_map]
  exact List.map_id _

/-- C3 (as amended): when no label's property key is a name inherited from
`Object.prototype`, `groupByModel` returns, and its labels are the distinct
property keys of the records' `modelo`, each once: first the keys that are
array indices, in ascending numeric order, then all other keys in the order in
which each is first met.  With no array-index key the order is first-encounter
order throughout. -/
theorem groupByModel_labels (data : List Row) (metric : String)
    (hp : ∀ row ∈ data, modelKey row ∉ objectPrototypeKeys) :
    ∃ entries, groupByModel data metric = Except.ok entries ∧
      (entries.map Entry.modelo).Nodup ∧
      (∀ k, k ∈ entries.map Entry.modelo ↔ k ∈ data.map modelKey) ∧
      entries.map Entry.modelo
        = (entries.map Entry.modelo).filter isArrayIndex
          ++ (entries.map Entry.modelo).filter (fun k => !isArrayIndex k) ∧
      ((entries.map Entry.modelo).filterMap arrayIndex?).Sorted (fun a b => a < b) ∧
      (entries.map Entry.modelo).filter (fun k => !isArrayIndex k)
        = (firstEncounter (data.map modelKey)).filter (fun k => !isArrayIndex k) ∧
      ((∀ row ∈ data, isArrayIndex (modelKey row) = false) →
        entries.map Entry.modelo = firstEncounter (data.map modelKey)) := by
  refine ⟨_, groupByModel_eq data metric hp, ?_⟩
  rw [labels_of_entries]
  have hnd : (((firstEncounter (data.map modelKey)).map
        (fun k => (k, groupValues data metric k))).map (fun p => p.1)).Nodup := by
    rw [keys_firstEncounter_map]
    exact nodup_firstEncounter _
  obtain ⟨h1, h2, h3, h4⟩ := ownEntries_keys _ hnd
  rw [keys_firstEncounter_map] at h1 h4
  refine ⟨h1.nodup_iff.mpr (nodup_firstEncounter _), ?_, h2, h3, h4, ?_⟩
  · intro k
    rw [h1.mem_iff, mem_firstEncounter]
  · intro hno
    rw [h2, h4]
    have e1 : List.filter isArrayIndex
        ((ownEntries ((firstEncounter (data.map modelKey)).map
          (fun k => (k, groupValues data metric k)))).map (fun p => p.1)) = [] := by
      apply List.filter_eq_nil_iff.mpr
      intro k hk
      rw [h1.mem_iff, mem_firstEncounter, List.mem_map] at hk
      obtain ⟨row, hrow, rfl⟩ := hk
      simp [hno row hrow]
    rw [e1, List.nil_append]
    apply List.filter_eq_self.mpr
    intro k hk
    rw [mem_firstEncounter, List.mem_map] at hk
    obtain ⟨row, hrow, rfl⟩ := hk
    simp [hno row hrow]

theorem toNumber_of_finiteNum (v : JSVal) (h : isFiniteNum v = true) :
    (toNumber v).isFinite = true ∧ (toNumber v).toRat = fieldValue v := by
  cases v with
  | num x =>
    cases x with
    | nan => simp [isFiniteNum, JSNum.isFinite] at h
    | inf b => simp [isFiniteNum, JSNum.isFinite] at h
    | negZero => simp [toNumber, JSNum.isFinite, JSNum.toRat, fieldValue]
    | fin q => simp [toNumber, JSNum.isFinite, JSNum.toRat, fieldValue]
  | undefined => simp [isFiniteNum] at h
  | null => simp [isFiniteNum] at h
  | bool b => simp [isFiniteNum] at h
  | str s => simp [isFiniteNum] at h
  | obj a b => simp [isFiniteNum] at h

theorem groupValues_toRat (data : List Row) (metric k : String)
    (hnum : ∀ row ∈ data, isFiniteNum (getProp row metric) = true) :
    (groupValues data metric k).map JSNum.toRat = groupRats data metric k := by
  unfold groupValues groupRats
  rw [List.map_map]
  apply List.map_congr_left
  intro row hrow
  exact (toNumber_of_finiteNum _ (hnum row (List.mem_of_mem_filter hrow))).2

/-- Witness for C3: the labels RNN, 7, CNN, 3, RNN come out as 3, 7, RNN, CNN. -/
theorem groupByModel_labels_witness :
    (∃ entries, groupByModel mixedLabels "accuracy" = Except.ok entries ∧
      (entries.map Entry.modelo).Nodup ∧
      (∀ k, k ∈ entries.map Entry.modelo ↔ k ∈ mixedLabels.map modelKey) ∧
      entries.map Entry.modelo
        = (entries.map Entry.modelo).filter isArrayIndex
          ++ (entries.map Entry.modelo).filter (fun k => !isArrayIndex k) ∧
      ((entries.map Entry.modelo).filterMap arrayIndex?).Sorted (fun a b => a < b) ∧
      (entries.map Entry.modelo).filter (fun k => !isArrayIndex k)
        = (firstEncounter (mixedLabels.map modelKey)).filter (fun k => !isArrayIndex k) ∧
      ((∀ row ∈ mixedLabels, isArrayIndex (modelKey row) = false) →
        entries.map Entry.modelo = firstEncounter (mixedLabels.map modelKey)))
    ∧ groupByModel mixedLabels "accuracy" = Except.ok
        [⟨"3", "0.500"⟩, ⟨"7", "0.500"⟩, ⟨"RNN", "0.750"⟩, ⟨"CNN", "0.250"⟩] :=
  ⟨groupByModel_labels mixedLabels "accuracy" (by decide!), by decide!⟩

/-- C3 (counterexample): records labelled 2 then 1 come out labelled "1" then
"2", not in first-encounter order; and a record labelled `constructor` makes
`groupByModel` throw instead of returning a list. -/
theorem groupByModel_labels_counterexample :
    firstEncounter (numericLabels.map modelKey) = ["2", "1"]
      ∧ groupByModel numericLabels "accuracy" = Except.ok [⟨"1", "0.250"⟩, ⟨"2", "0.500"⟩]
      ∧ groupByModel inheritedLabel "accuracy" = Except.error "TypeError" := by
  decide!

theorem filter_eq_singleton_of_nodup (l : List String) (a : String)
    (hnd : l.Nodup) (ha : a ∈ l) : l.filter (fun k => decide (k = a)) = [a] := by
  induction l with
  | nil => cases ha
  | cons b l ih =>
    rw [List.nodup_cons] at hnd
    by_cases hb : b = a
    · subst hb
      have : l.filter (fun k => decide (k = b)) = [] := by
        apply List.filter_eq_nil_iff.mpr
        intro k hk
        have : k ≠ b := fun hc => hnd.1 (hc ▸ hk)
        simp [this]
      simp [List.filter_cons, this]
    · have ha' : a ∈ l := by
        rcases List.mem_cons.mp ha with h | h
        · exact absurd h.symm hb
        · exact h
      simp [List.filter_cons, hb, ih hnd.2 ha']

theorem modelKey_of_absent (row : Row) (h : row.lookup "modelo" = none) :
    modelKey row = "undefined" := by
  have hn : "modelo" ∉ objectPrototypeKeys := by decide
  simp [modelKey, getProp, h, hn, toPropertyKey]

/-- C9 (as amended): the grouping key is always a string; a record whose
`modelo` is absent gets the key "undefined" (a `null` one the key "null").  When
no key is a name inherited from `Object.prototype`, `groupByModel` returns and
all records with the key "undefined" (those without `modelo` and those whose
`modelo` reads "undefined") form the one entry of that label, whose `promedio`
is `toFixed(3)` of the binary64 mean of `Number(row[metric])` over them. -/
theorem groupByModel_absent_modelo (data : List Row) (metric : String)
    (hp : ∀ row ∈ data, modelKey row ∉ objectPrototypeKeys) :
    (∀ row ∈ data, row.lookup "modelo" = none → modelKey row = "undefined") ∧
    (∀ row ∈ data, row.lookup "modelo" = some JSVal.null → modelKey row = "null") ∧
    ∃ entries, groupByModel data metric = Except.ok entries ∧
      ((∃ row ∈ data, modelKey row = "undefined") →
        entries.filter (fun e => decide (e.modelo = "undefined"))
          = [⟨"undefined", promedio (groupValues data metric "undefined")⟩]) := by
  refine ⟨fun row _ h => modelKey_of_absent row h, ?_, _, groupByModel_eq data metric hp, ?_⟩
  · intro row _ h
    simp [modelKey, getProp, h, toPropertyKey]
  · intro hex
    obtain ⟨row, hrow, hkey⟩ := hex
    have hmem : "undefined" ∈ firstEncounter (data.map modelKey) := by
      rw [mem_firstEncounter, ← hkey]
      exact List.mem_map_of_mem _ hrow
    have hE : ((firstEncounter (data.map modelKey)).map
        (fun k => (k, groupValues data metric k))).filter
          (fun p => decide (p.1 = "undefined"))
        = [("undefined", groupValues data metric "undefined")] := by
      rw [List.filter_map]
      have : (fun p : String × List JSNum => decide (p.1 = "undefined")) ∘
          (fun k => (k, groupValues data metric k)) = fun k => decide (k = "undefined") := by
        funext k; rfl
      rw [this, filter_eq_singleton_of_nodup _ _ (nodup_firstEncounter _) hmem]
      rfl
    have hperm := (ownEntries_perm ((firstEncounter (data.map modelKey)).map
        (fun k => (k, groupValues data metric k)))).filter
          (fun p => decide (p.1 = "undefined"))
    rw [hE, List.perm_singleton] at hperm
    rw [List.filter_map]
    have : (fun e : Entry => decide (e.modelo = "undefined")) ∘
        (fun p : String × List JSNum => (⟨p.1, promedio p.2⟩ : Entry))
        = fun p => decide (p.1 = "undefined") := by
      funext p; rfl
    rw [this, hperm]
    rfl

/-- Witness for C9: a record without `modelo` and a record whose `modelo` is the
text "undefined" share the single entry "undefined". -/
theorem groupByModel_absent_modelo_witness :
    ((∀ row ∈ absentAndText, row.lookup "modelo" = none → modelKey row = "undefined") ∧
    (∀ row ∈ absentAndText, row.lookup "modelo" = some JSVal.null → modelKey row = "null") ∧
    ∃ entries, groupByModel absentAndText "accuracy" = Except.ok entries ∧
      ((∃ row ∈ absentAndText, modelKey row = "undefined") →
        entries.filter (fun e => decide (e.modelo = "undefined"))
          = [⟨"undefined", promedio (groupValues absentAndText "accuracy" "undefined")⟩]))
    ∧ promedio (groupValues absentAndText "accuracy" "undefined") = "0.500" :=
  ⟨groupByModel_absent_modelo absentAndText "accuracy" (by decide!), by decide!⟩

/-- C9 (counterexample): the only record without `modelo` has accuracy 1, yet
the entry "undefined" reports "0.500", because the record whose `modelo` is the
text "undefined" is averaged in. -/
theorem groupByModel_absent_modelo_counterexample :
    absentAndText.filter (fun row => decide (row.lookup "modelo" = none))
        = [[("accuracy", JSVal.num (JSNum.fin 1))]]
      ∧ decimal3 (mean ((absentAndText.filter
          (fun row => decide (row.lookup "modelo" = none))).map
            (fun row => fieldValue (getProp row "accuracy")))) = "1.000"
      ∧ groupByModel absentAndText "accuracy" = Except.ok [⟨"undefined", "0.500"⟩] := by
  decide!

/-- C4 (as amended): a record whose field `m` is absent, `null` or the empty
string contributes exactly `+0` to the sum `SummaryTable` averages, and it is
counted in the divisor, the number of records; a field holding a non-empty
text contributes what `Number` makes of the text, which is NaN when the text
is not numeric. -/
theorem summand_blank (row : Row) (m : String) :
    ((getProp row m = JSVal.undefined ∨ getProp row m = JSVal.null ∨
        getProp row m = JSVal.str "") → summand row m = JSNum.fin 0) ∧
    (∀ s, s ≠ "" → getProp row m = JSVal.str s → summand row m = strToNum s) ∧
    (∀ pre post : List Row,
      metricSum (pre ++ row :: post) m
        = post.foldl (fun acc r => add acc (summand r m)) (add (metricSum pre m) (summand row m)) ∧
      summaryCell (pre ++ row :: post) m
        = toFixed (div (metricSum (pre ++ row :: post) m)
            (ofNat (pre.length + 1 + post.length))) 3) := by
  refine ⟨?_, ?_, ?_⟩
  · intro h
    rcases h with h | h | h <;> simp [summand, h, or, toBoolean, toNumber]
  · intro s hs h
    simp [summand, h, or, toBoolean, toNumber, hs]
  · intro pre post
    constructor
    · simp [metricSum, List.foldl_append]
    · simp [summaryCell, Nat.add_assoc, Nat.add_comm 1]

/-- C4 (counterexample): a record whose `loss` is the text "abc" contributes
NaN, and `summary.loss` reads "NaN". -/
theorem summand_text_counterexample :
    summand textLoss "loss" = JSNum.nan ∧ summaryCell [textLoss] "loss" = "NaN"
      ∧ summaryCell [blankLoss, textLoss] "loss" = "NaN" := by
  decide!

/-- C5 (the divergence): for a row that lacks the metric field, `groupByModel`
pushes `Number(undefined)`, NaN, while `SummaryTable` adds `Number(undefined
|| 0)`, 0; the chart reads "NaN" where the table reads "0.000". -/
theorem groupByModel_absent_metric :
    toNumber (getProp shortRow "accuracy") = JSNum.nan
      ∧ summand shortRow "accuracy" = JSNum.fin 0
      ∧ groupByModel [shortRow] "accuracy" = Except.ok [⟨"CNN", "NaN"⟩]
      ∧ summaryCell [shortRow] "accuracy" = "0.000" := by
  decide!

theorem mem_objectValues (row : Row) (v : JSVal) :
    v ∈ objectValues row ↔ ∃ p ∈ row, p.2 = v := by
  unfold objectValues
  rw [List.mem_map]
  constructor
  · rintro ⟨p, hp, rfl⟩
    exact ⟨p, (ownEntries_perm row).mem_iff.mp hp, rfl⟩
  · rintro ⟨p, hp, rfl⟩
    exact ⟨p, (ownEntries_perm row).mem_iff.mpr hp, rfl⟩

/-- C7: `fetchCSV` resolves to exactly the rows, in input order, that have a
field whose value is neither `null` nor the empty string. -/
theorem fetchCSV_keeps_rows_with_value (data : List Row) :
    fetchCSV (Source.parsed data)
      = Except.ok (data.filter (fun row => decide (HasValue row))) := by
  show Except.ok (filtered data) = _
  unfold filtered
  congr 1
  apply List.filter_congr
  intro row _
  rw [Bool.eq_iff_iff]
  simp only [List.any_eq_true, decide_eq_true_eq, Bool.and_eq_true, bne_iff_ne, ne_eq, HasValue]
  constructor
  · rintro ⟨v, hv, h1, h2⟩
    obtain ⟨p, hp, rfl⟩ := (mem_objectValues row v).mp hv
    exact ⟨p, hp, h1, h2⟩
  · rintro ⟨p, hp, h1, h2⟩
    exact ⟨p.2, (mem_objectValues row p.2).mpr ⟨p, hp, rfl⟩, h1, h2⟩

/-- C10 (as amended): when `fetch` or `response.text()` rejects, the promise of
`fetchCSV` rejects and the state `data` stays the initial empty array; the
state is empty exactly then and when a load succeeded with no row kept, and
in both cases line 98 selects the same "No se encontraron datos" notice.  Any
answer whose text was parsed, whatever its HTTP status, puts the rows kept
by the filter into the state. -/
theorem appData_empty_iff (src : Source) :
    (appData src = [] ↔
      src = Source.unavailable ∨ ∃ data, src = Source.parsed data ∧ filtered data = []) ∧
    (noDataNotice (appData src) = true ↔ appData src = []) ∧
    (∀ data, src = Source.parsed data →
      fetchCSV src = Except.ok (filtered data) ∧ appData src = filtered data) ∧
    (src = Source.unavailable → ∀ rows, fetchCSV src ≠ Except.ok rows) := by
  refine ⟨?_, ?_, ?_, ?_⟩
  · cases src with
    | unavailable => simp [appData, fetchCSV]
    | parsed data => simp [appData, fetchCSV]
  · simp [noDataNotice]
  · rintro data rfl
    exact ⟨rfl, rfl⟩
  · rintro rfl rows h
    cases h

/-- C10 (counterexample): a rejected fetch and a successful load of zero
records differ as promises, yet leave the same state `data` and select the
same notice. -/
theorem appData_unavailable_counterexample :
    fetchCSV Source.unavailable ≠ fetchCSV (Source.parsed [])
      ∧ appData Source.unavailable = appData (Source.parsed [])
      ∧ noDataNotice (appData Source.unavailable) = true
      ∧ noDataNotice (appData (Source.parsed [])) = true := by
  decide!

theorem digitChar_isDigit (d : Nat) (h : d < 10) : (digitChar d).isDigit = true := by
  interval_cases d <;> decide

theorem decDigits_isDigit (n : Nat) : ∀ c ∈ decDigits n, c.isDigit = true := by
  induction n using Nat.strong_induction_on with
  | _ n ih =>
    intro c hc
    by_cases h : n < 10
    · rw [decDigits_lt n h] at hc
      simp only [List.mem_singleton] at hc
      subst hc
      exact digitChar_isDigit n h
    · rw [decDigits_ge n (by omega), List.mem_append] at hc
      rcases hc with hc | hc
      · exact ih (n / 10) (Nat.div_lt_self (by omega) (by omega)) c hc
      · simp only [List.mem_singleton] at hc
        subst hc
        exact digitChar_isDigit _ (Nat.mod_lt _ (by omega))

theorem decDigits_head (n : Nat) :
    ∃ c rest, decDigits n = c :: rest ∧ c.isDigit = true := by
  cases h : decDigits n with
  | nil =>
    have := decDigits_length_pos n
    rw [h] at this
    simp at this
  | cons c rest =>
    exact ⟨c, rest, rfl, decDigits_isDigit n c (by rw [h]; exact List.mem_cons_self _ _)⟩

theorem isThreeDecimals_of_shape (neg : Bool) (D : List Char) (a b c : Char)
    (hall : ∀ x ∈ D, x.isDigit = true) (hne : D ≠ [])
    (ha : a.isDigit = true) (hb : b.isDigit = true) (hc : c.isDigit = true) :
    isThreeDecimals (String.mk ((if neg then ['-'] else []) ++ D ++ ['.', a, b, c])) = true := by
  have hdot : Char.isDigit '.' = false := by decide
  have htw : (D ++ ['.', a, b, c]).takeWhile Char.isDigit = D := by
    rw [List.takeWhile_append_of_pos hall]
    simp [List.takeWhile_cons, hdot]
  have hdw : (D ++ ['.', a, b, c]).dropWhile Char.isDigit = ['.', a, b, c] := by
    rw [List.dropWhile_append_of_pos hall]
    simp [List.dropWhile_cons, hdot]
  have hemp : D.isEmpty = false := by
    cases D with
    | nil => exact absurd rfl hne
    | cons x xs => rfl
  have hstrip : dropMinus ((if neg then ['-'] else []) ++ D ++ ['.', a, b, c])
      = D ++ ['.', a, b, c] := by
    cases neg with
    | true => rfl
    | false =>
      cases D with
      | nil => exact absurd rfl hne
      | cons x xs =>
        have hx : x ≠ '-' := by
          intro hx'
          have := hall x (List.mem_cons_self _ _)
          rw [hx'] at this
          revert this
          decide
        simp only [Bool.false_eq_true, if_false, List.nil_append, List.cons_append]
        unfold dropMinus
        split
        · rename_i r heq
          injection heq with h1 h2
          exact absurd h1 hx
        · rfl
  unfold isThreeDecimals
  simp only [hstrip, htw, hdw, hemp, ha, hb, hc]
  rfl

theorem isThreeDecimals_decimal3 (q : ℚ) : isThreeDecimals (decimal3 q) = true := by
  have h := isThreeDecimals_of_shape (decide (q < 0)) (decDigits (nearestInt (|q| * 1000) / 1000))
    (digitChar (nearestInt (|q| * 1000) / 100 % 10))
    (digitChar (nearestInt (|q| * 1000) / 10 % 10))
    (digitChar (nearestInt (|q| * 1000) % 10))
    (decDigits_isDigit _)
    (by
      intro hc
      have := decDigits_length_pos (nearestInt (|q| * 1000) / 1000)
      rw [hc] at this
      simp at this)
    (digitChar_isDigit _ (Nat.mod_lt _ (by omega)))
    (digitChar_isDigit _ (Nat.mod_lt _ (by omega)))
    (digitChar_isDigit _ (Nat.mod_lt _ (by omega)))
  simpa [decimal3] using h

theorem posToString_head (x : ℚ) :
    ∃ c rest, posToString x = c :: rest ∧ c.isDigit = true := by
  unfold posToString
  generalize shortestAux 17 1 x (decExponent x) = r
  obtain ⟨s, n, k⟩ := r
  obtain ⟨c, rest, hD, hc⟩ := decDigits_head s
  simp only [hD]
  by_cases h1 : -5 ≤ n ∧ n ≤ 21
  · simp only [h1, and_self, if_true]
    by_cases h2 : (k : Int) ≤ n
    · simp only [h2, if_true]
      exact ⟨c, _, rfl, hc⟩
    · simp only [h2, if_false]
      by_cases h3 : 0 < n
      · simp only [h3, if_true]
        obtain ⟨m, hm⟩ : ∃ m, n.toNat = m + 1 := ⟨n.toNat - 1, by omega⟩
        rw [hm]
        exact ⟨c, _, rfl, hc⟩
      · simp only [h3, if_false]
        exact ⟨'0', _, rfl, by decide⟩
  · simp only [h1, if_false]
    by_cases h4 : k = 1
    · simp only [h4, if_true]
      exact ⟨c, _, rfl, hc⟩
    · simp only [h4, if_false]
      exact ⟨c, _, rfl, hc⟩

theorem numToString_fin_ne_NaN (q : ℚ) : numToString (JSNum.fin q) ≠ "NaN" := by
  unfold numToString
  by_cases h0 : q = 0
  · simp only [h0, if_true]; decide
  · simp only [h0, if_false]
    by_cases h1 : q < 0
    · simp only [h1, if_true]
      intro hc
      have := congrArg String.data hc
      simp at this
    · simp only [h1, if_false]
      obtain ⟨c, rest, hp, hc⟩ := posToString_head q
      rw [hp]
      intro hcontra
      have := congrArg String.data hcontra
      simp only [String.data] at this
      injection this with h1 h2
      rw [h1] at hc
      revert hc
      decide

theorem toFixed_cases (x : JSNum) :
    toFixed x 3 = "NaN" ∨ toFixed x 3 = "Infinity" ∨ toFixed x 3 = "-Infinity" ∨
      isThreeDecimals (toFixed x 3) = true ∨
      ∃ q : ℚ, 10 ^ 21 ≤ |q| ∧ toFixed x 3 = numToString (JSNum.fin q) := by
  cases x with
  | nan => exact Or.inl rfl
  | inf b =>
    cases b with
    | true => exact Or.inr (Or.inr (Or.inl rfl))
    | false => exact Or.inr (Or.inl rfl)
  | negZero => exact Or.inr (Or.inr (Or.inr (Or.inl (by decide))))
  | fin q =>
    by_cases h : (10 : ℚ) ^ 21 ≤ |q|
    · refine Or.inr (Or.inr (Or.inr (Or.inr ⟨q, h, ?_⟩)))
      simp [toFixed, h]
    · refine Or.inr (Or.inr (Or.inr (Or.inl ?_)))
      rw [toFixed_fin q (not_le.mp h)]
      exact isThreeDecimals_decimal3 q

theorem toFixed_finite_ne_NaN (x : JSNum) (h : x.isFinite = true) : toFixed x 3 ≠ "NaN" := by
  cases x with
  | nan => simp [JSNum.isFinite] at h
  | inf b => simp [JSNum.isFinite] at h
  | negZero => decide
  | fin q =>
    by_cases hb : (10 : ℚ) ^ 21 ≤ |q|
    · simp only [toFixed, hb, if_true]
      exact numToString_fin_ne_NaN q
    · rw [toFixed_fin q (not_le.mp hb)]
      intro hc
      have h3 := isThreeDecimals_decimal3 q
      rw [hc] at h3
      revert h3
      decide

/-- C8 (as amended): for every sequence of records the object `summary` has
exactly the keys accuracy, precision, recall, loss, tiempo_entrenamiento, in
that order, and each value is what `toFixed(3)` returns: a number written with
three decimals, or "NaN", "Infinity" or "-Infinity", or, for a mean of
magnitude `10^21` or more, the number in exponent notation. -/
theorem SummaryTable_keys_and_values (data : List Row) :
    (SummaryTable data).map (fun p => p.1)
        = ["accuracy", "precision", "recall", "loss", "tiempo_entrenamiento"] ∧
    ∀ p ∈ SummaryTable data,
      p.2 = "NaN" ∨ p.2 = "Infinity" ∨ p.2 = "-Infinity" ∨ isThreeDecimals p.2 = true ∨
        ∃ q : ℚ, 10 ^ 21 ≤ |q| ∧ p.2 = numToString (JSNum.fin q) := by
  constructor
  · simp [SummaryTable, metrics]
  · intro p hp
    unfold SummaryTable at hp
    obtain ⟨m, _, rfl⟩ := List.mem_map.mp hp
    exact toFixed_cases _

/-- C8 (counterexample): one record whose `accuracy` is the text "Infinity"
makes `summary.accuracy` read "Infinity", neither a number with three decimals
nor "NaN"; the text "1e21" gives "1e+21". -/
theorem SummaryTable_infinity_counterexample :
    (SummaryTable [infiniteAccuracy]).lookup "accuracy" = some "Infinity"
      ∧ isThreeDecimals "Infinity" = false
      ∧ summaryCell [[("accuracy", JSVal.str "1e21")]] "accuracy" = "1e+21"
      ∧ isThreeDecimals "1e+21" = false := by
  decide!

/-- C6: on the empty record sequence `SummaryTable` stores the text "NaN" under
each of the five metrics (the quotient `0 / 0` is NaN and nothing is thrown);
"NaN" differs from "0.000" and from what `toFixed(3)` returns for any finite
number. -/
theorem SummaryTable_empty :
    SummaryTable [] =
        [("accuracy", "NaN"), ("precision", "NaN"), ("recall", "NaN"), ("loss", "NaN"),
         ("tiempo_entrenamiento", "NaN")] ∧
    div (metricSum [] "accuracy") (ofNat ([] : List Row).length) = JSNum.nan ∧
    ∀ x : JSNum, x.isFinite = true → toFixed x 3 ≠ "NaN" :=
  ⟨by decide!, by decide!, toFixed_finite_ne_NaN⟩

theorem roundHalfEven_error (N D : Nat) (hD : 0 < D) :
    |((roundHalfEven N D : Nat) : ℚ) - (N : ℚ) / (D : ℚ)| ≤ 1 / 2 := by
  have hDq : (0 : ℚ) < (D : ℚ) := by exact_mod_cast hD
  have hc : (N : ℚ) = (D : ℚ) * ((N / D : Nat) : ℚ) + ((N % D : Nat) : ℚ) := by
    exact_mod_cast (Nat.div_add_mod N D).symm
  have hdecomp : (N : ℚ) / (D : ℚ) = ((N / D : Nat) : ℚ) + ((N % D : Nat) : ℚ) / (D : ℚ) := by
    rw [eq_comm, ← sub_eq_zero]
    field_simp
    linarith
  have hr0 : (0 : ℚ) ≤ ((N % D : Nat) : ℚ) / (D : ℚ) := by positivity
  rw [hdecomp]
  unfold roundHalfEven
  simp only
  by_cases h1 : 2 * (N % D) < D
  · simp only [h1, if_true]
    have h1q : (2 : ℚ) * ((N % D : Nat) : ℚ) < (D : ℚ) := by exact_mod_cast h1
    have : ((N % D : Nat) : ℚ) / (D : ℚ) ≤ 1 / 2 := by
      rw [div_le_iff₀ hDq]; linarith
    rw [abs_le]
    constructor <;> linarith
  · simp only [h1, if_false]
    by_cases h2 : D < 2 * (N % D)
    · simp only [h2, if_true]
      have h2q : (D : ℚ) < (2 : ℚ) * ((N % D : Nat) : ℚ) := by exact_mod_cast h2
      have hlt : N % D < D := Nat.mod_lt _ hD
      have hltq : ((N % D : Nat) : ℚ) < (D : ℚ) := by exact_mod_cast hlt
      have ha : (1 : ℚ) / 2 ≤ ((N % D : Nat) : ℚ) / (D : ℚ) := by
        rw [le_div_iff₀ hDq]; linarith
      have hb : ((N % D : Nat) : ℚ) / (D : ℚ) ≤ 1 := by
        rw [div_le_iff₀ hDq]; linarith
      rw [abs_le]
      push_cast
      constructor <;> linarith
    · simp only [h2, if_false]
      have heq : 2 * (N % D) = D := by omega
      have heqq : (2 : ℚ) * ((N % D : Nat) : ℚ) = (D : ℚ) := by exact_mod_cast heq
      have ha : ((N % D : Nat) : ℚ) / (D : ℚ) = 1 / 2 := by
        rw [div_eq_iff (ne_of_gt hDq)]; linarith
      rw [ha, abs_le]
      by_cases h3 : N / D % 2 = 0
      · simp only [h3, if_true]
        constructor <;> linarith
      · simp only [h3, if_false]
        push_cast
        constructor <;> linarith

theorem floorLog2_spec (n d : Nat) (hn : 0 < n) (hd : 0 < d) :
    (2 : ℚ) ^ (floorLog2 n d) ≤ (n : ℚ) / (d : ℚ) ∧
      (n : ℚ) / (d : ℚ) < (2 : ℚ) ^ (floorLog2 n d + 1) := by
  obtain ⟨ha1, ha2⟩ := log2_spec n hn
  obtain ⟨hb1, hb2⟩ := log2_spec d hd
  have hdq : (0 : ℚ) < (d : ℚ) := by exact_mod_cast hd
  have qa1 : (2 : ℚ) ^ (log2 n) ≤ (n : ℚ) := by exact_mod_cast ha1
  have qa2 : (n : ℚ) < (2 : ℚ) ^ (log2 n) * 2 := by
    have : (n : ℚ) < (2 : ℚ) ^ (log2 n + 1) := by exact_mod_cast ha2
    rwa [pow_succ] at this
  have qb1 : (2 : ℚ) ^ (log2 d) ≤ (d : ℚ) := by exact_mod_cast hb1
  have qb2 : (d : ℚ) < (2 : ℚ) ^ (log2 d) * 2 := by
    have : (d : ℚ) < (2 : ℚ) ^ (log2 d + 1) := by exact_mod_cast hb2
    rwa [pow_succ] at this
  have pa : (0 : ℚ) < (2 : ℚ) ^ (log2 n) := by positivity
  have pb : (0 : ℚ) < (2 : ℚ) ^ (log2 d) := by positivity
  have hk0 : (2 : ℚ) ^ ((log2 n : Int) - (log2 d : Int))
      = (2 : ℚ) ^ (log2 n) / (2 : ℚ) ^ (log2 d) := by
    rw [zpow_sub₀ (by norm_num : (2 : ℚ) ≠ 0), zpow_natCast, zpow_natCast]
  have hnq : (0 : ℚ) ≤ (n : ℚ) := by positivity
  have e1 : (2 : ℚ) ^ ((log2 n : Int) - (log2 d : Int) - 1)
      = (2 : ℚ) ^ (log2 n) / ((2 : ℚ) ^ (log2 d) * 2) := by
    rw [zpow_sub_one₀ (by norm_num : (2 : ℚ) ≠ 0), hk0]
    field_simp
  have e2 : (2 : ℚ) ^ ((log2 n : Int) - (log2 d : Int) + 1)
      = (2 : ℚ) ^ (log2 n) * 2 / (2 : ℚ) ^ (log2 d) := by
    rw [zpow_add_one₀ (by norm_num : (2 : ℚ) ≠ 0), hk0]
    field_simp
  have hL : (2 : ℚ) ^ ((log2 n : Int) - (log2 d : Int) - 1) ≤ (n : ℚ) / (d : ℚ) := by
    rw [e1, div_le_div_iff₀ (by positivity) hdq]
    have := mul_le_mul qa1 (le_of_lt qb2) (le_of_lt hdq) hnq
    linarith
  have hU : (n : ℚ) / (d : ℚ) < (2 : ℚ) ^ ((log2 n : Int) - (log2 d : Int) + 1) := by
    rw [e2, div_lt_div_iff₀ hdq pb]
    have := mul_lt_mul qa2 qb1 pb (by positivity : (0 : ℚ) ≤ (2 : ℚ) ^ (log2 n) * 2)
    linarith
  unfold floorLog2
  simp only
  by_cases hk : (0 : Int) ≤ (log2 n : Int) - (log2 d : Int)
  · simp only [hk, if_true]
    have hto : ((log2 n : Int) - (log2 d : Int)).toNat = log2 n - log2 d := by omega
    have hle : log2 d ≤ log2 n := by omega
    have hpow : (2 : ℚ) ^ ((log2 n : Int) - (log2 d : Int)) = (2 : ℚ) ^ (log2 n - log2 d) := by
      have : (log2 n : Int) - (log2 d : Int) = ((log2 n - log2 d : Nat) : Int) := by omega
      rw [this, zpow_natCast]
    rw [hto]
    by_cases ht : d * 2 ^ (log2 n - log2 d) ≤ n
    · simp only [ht, if_true]
      refine ⟨?_, hU⟩
      rw [hpow, le_div_iff₀ hdq]
      have : ((d * 2 ^ (log2 n - log2 d) : Nat) : ℚ) ≤ (n : ℚ) := by exact_mod_cast ht
      push_cast at this
      linarith
    · simp only [ht, if_false]
      refine ⟨hL, ?_⟩
      rw [sub_add_cancel, hpow, div_lt_iff₀ hdq]
      have : (n : ℚ) < ((d * 2 ^ (log2 n - log2 d) : Nat) : ℚ) := by exact_mod_cast not_le.mp ht
      push_cast at this
      linarith
  · simp only [hk, if_false]
    have hto : (-((log2 n : Int) - (log2 d : Int))).toNat = log2 d - log2 n := by omega
    have hpow : (2 : ℚ) ^ ((log2 n : Int) - (log2 d : Int))
        = 1 / (2 : ℚ) ^ (log2 d - log2 n) := by
      have : (log2 n : Int) - (log2 d : Int) = -((log2 d - log2 n : Nat) : Int) := by omega
      rw [this, zpow_neg, zpow_natCast, one_div]
    have pc : (0 : ℚ) < (2 : ℚ) ^ (log2 d - log2 n) := by positivity
    rw [hto]
    by_cases ht : d ≤ n * 2 ^ (log2 d - log2 n)
    · simp only [ht, if_true]
      refine ⟨?_, hU⟩
      rw [hpow, le_div_iff₀ hdq, div_mul_eq_mul_div, div_le_iff₀ pc]
      have : (d : ℚ) ≤ ((n * 2 ^ (log2 d - log2 n) : Nat) : ℚ) := by exact_mod_cast ht
      push_cast at this
      linarith
    · simp only [ht, if_false]
      refine ⟨hL, ?_⟩
      rw [sub_add_cancel, hpow, div_lt_iff₀ hdq, div_mul_eq_mul_div, lt_div_iff₀ pc]
      have : ((n * 2 ^ (log2 d - log2 n) : Nat) : ℚ) < (d : ℚ) := by exact_mod_cast not_le.mp ht
      push_cast at this
      linarith

theorem scale2_eq (m : Nat) (e : Int) : scale2 m e = (m : ℚ) * (2 : ℚ) ^ e := by
  unfold scale2
  by_cases h : 0 ≤ e
  · obtain ⟨c, rfl⟩ : ∃ c : Nat, e = (c : Int) := ⟨e.toNat, by omega⟩
    simp [zpow_natCast]
  · obtain ⟨c, rfl⟩ : ∃ c : Nat, e = -(c : Int) := ⟨(-e).toNat, by omega⟩
    simp only [h, if_false, neg_neg, Int.toNat_natCast, zpow_neg, zpow_natCast]
    push_cast
    rw [div_eq_mul_inv]

theorem scaled_round_error (n d : Nat) (hd : 0 < d) (e : Int) :
    |(((if 0 ≤ e then roundHalfEven n (d * 2 ^ e.toNat)
          else roundHalfEven (n * 2 ^ (-e).toNat) d : Nat) : ℚ)) * (2 : ℚ) ^ e
        - (n : ℚ) / (d : ℚ)| ≤ (2 : ℚ) ^ e / 2 := by
  have hP : (0 : ℚ) < (2 : ℚ) ^ e := zpow_pos (by norm_num) e
  have hdq : (0 : ℚ) < (d : ℚ) := by exact_mod_cast hd
  have key : ∀ m : Nat, |(m : ℚ) - (n : ℚ) / (d : ℚ) / (2 : ℚ) ^ e| ≤ 1 / 2 →
      |(m : ℚ) * (2 : ℚ) ^ e - (n : ℚ) / (d : ℚ)| ≤ (2 : ℚ) ^ e / 2 := by
    intro m herr
    have : (m : ℚ) * (2 : ℚ) ^ e - (n : ℚ) / (d : ℚ)
        = ((m : ℚ) - (n : ℚ) / (d : ℚ) / (2 : ℚ) ^ e) * (2 : ℚ) ^ e := by
      field_simp
      ring
    rw [this, abs_mul, abs_of_pos hP]
    calc _ ≤ 1 / 2 * (2 : ℚ) ^ e := mul_le_mul_of_nonneg_right herr (le_of_lt hP)
      _ = (2 : ℚ) ^ e / 2 := by ring
  by_cases he : 0 ≤ e
  · obtain ⟨c, rfl⟩ : ∃ c : Nat, e = (c : Int) := ⟨e.toNat, by omega⟩
    simp only [he, if_true, Int.toNat_natCast]
    apply key
    have herr := roundHalfEven_error n (d * 2 ^ c) (Nat.mul_pos hd (by positivity))
    have hdiv : (n : ℚ) / ((d * 2 ^ c : Nat) : ℚ) = (n : ℚ) / (d : ℚ) / (2 : ℚ) ^ (c : Int) := by
      rw [zpow_natCast]
      push_cast
      rw [div_div]
    rwa [hdiv] at herr
  · obtain ⟨c, rfl⟩ : ∃ c : Nat, e = -(c : Int) := ⟨(-e).toNat, by omega⟩
    simp only [he, if_false, neg_neg, Int.toNat_natCast]
    apply key
    have herr := roundHalfEven_error (n * 2 ^ c) d hd
    have hdiv : ((n * 2 ^ c : Nat) : ℚ) / (d : ℚ) = (n : ℚ) / (d : ℚ) / (2 : ℚ) ^ (-(c : Int)) := by
      rw [zpow_neg, zpow_natCast]
      push_cast
      field_simp
    rwa [hdiv] at herr

theorem half_ulp_le (q : ℚ) (k : Int) (h0 : 0 ≤ q) (hk1 : (2 : ℚ) ^ k ≤ q) :
    (2 : ℚ) ^ (max (k - 52) (-1074)) / 2 ≤ q / 2 ^ 53 + 1 / 2 ^ 1075 := by
  have hq53 : (0 : ℚ) ≤ q / 2 ^ 53 := by positivity
  have h1075 : (0 : ℚ) ≤ 1 / 2 ^ 1075 := by positivity
  rcases le_total (k - 52) (-1074) with hle | hle
  · rw [max_eq_right hle]
    have : (2 : ℚ) ^ (-1074 : Int) / 2 = 1 / 2 ^ 1075 := by
      rw [zpow_neg]
      norm_num
    rw [this]
    linarith
  · rw [max_eq_left hle]
    have : (2 : ℚ) ^ (k - 52) / 2 = (2 : ℚ) ^ k / 2 ^ 53 := by
      rw [zpow_sub₀ (by norm_num : (2 : ℚ) ≠ 0)]
      norm_num
      ring
    rw [this]
    have : (2 : ℚ) ^ k / 2 ^ 53 ≤ q / 2 ^ 53 :=
      div_le_div_of_nonneg_right hk1 (by positivity)
    linarith

theorem fin_ite_zero (m : Nat) (P : ℚ) :
    (if m = 0 then JSNum.fin 0 else JSNum.fin ((m : ℚ) * P)) = JSNum.fin ((m : ℚ) * P) := by
  by_cases h : m = 0 <;> simp [h]

theorem fin_ite_zero_neg (m : Nat) (P : ℚ) :
    (if m = 0 then JSNum.negZero else JSNum.fin (-((m : ℚ) * P))).isFinite = true ∧
      (if m = 0 then JSNum.negZero else JSNum.fin (-((m : ℚ) * P))).toRat = -((m : ℚ) * P) := by
  by_cases h : m = 0 <;> simp [h, JSNum.isFinite, JSNum.toRat]

theorem roundQ_error (q : ℚ) (hb : |q| < 2 ^ 1023) :
    (roundQ q).isFinite = true ∧ |(roundQ q).toRat - q| ≤ roundErr |q| ∧
      (0 ≤ q → 0 ≤ (roundQ q).toRat) ∧ (q ≤ 0 → (roundQ q).toRat ≤ 0) := by
  by_cases hq0 : q = 0
  · subst hq0
    rw [roundQ_zero]
    simp [JSNum.isFinite, JSNum.toRat, roundErr]
  · have hnum0 : q.num ≠ 0 := fun h => hq0 (Rat.num_eq_zero.mp h)
    have hn : 0 < q.num.natAbs := Int.natAbs_pos.mpr hnum0
    have hd : 0 < q.den := q.den_pos
    have hdq : (0 : ℚ) < (q.den : ℚ) := by exact_mod_cast hd
    have habs : ((q.num.natAbs : Nat) : ℚ) / (q.den : ℚ) = |q| := by
      have h1 : ((q.num.natAbs : Nat) : ℚ) = |(q.num : ℚ)| := by
        rw [← Int.cast_natCast, Int.natCast_natAbs, Int.cast_abs]
      rw [h1]
      conv_rhs => rw [← Rat.num_div_den q]
      rw [abs_div, abs_of_pos hdq]
    obtain ⟨hk1, hk2⟩ := floorLog2_spec q.num.natAbs q.den hn hd
    have hmm := scaled_round_error q.num.natAbs q.den hd
      (max (floorLog2 q.num.natAbs q.den - 52) (-1074))
    rw [habs] at hk1 hk2 hmm
    have hk : floorLog2 q.num.natAbs q.den ≤ 1022 := by
      by_contra hc
      have h1023 : (1023 : Int) ≤ floorLog2 q.num.natAbs q.den := by omega
      have : (2 : ℚ) ^ (1023 : Int) ≤ (2 : ℚ) ^ (floorLog2 q.num.natAbs q.den) :=
        zpow_le_zpow_right₀ (by norm_num) h1023
      have h' : (2 : ℚ) ^ (1023 : Int) = (2 : ℚ) ^ (1023 : Nat) := by
        rw [← zpow_natCast]; rfl
      rw [h'] at this
      linarith
    have hulp := half_ulp_le |q| _ (abs_nonneg q) hk1
    have herr := le_trans hmm hulp
    have h972 : ¬ ((972 : Int) ≤ max (floorLog2 q.num.natAbs q.den - 52) (-1074)) := by omega
    have h971 : ¬ (max (floorLog2 q.num.natAbs q.den - 52) (-1074) = 971) := by omega
    have hM0 : (0 : ℚ) ≤ (((if 0 ≤ max (floorLog2 q.num.natAbs q.den - 52) (-1074)
          then roundHalfEven q.num.natAbs
            (q.den * 2 ^ (max (floorLog2 q.num.natAbs q.den - 52) (-1074)).toNat)
          else roundHalfEven
            (q.num.natAbs * 2 ^ (-(max (floorLog2 q.num.natAbs q.den - 52) (-1074))).toNat)
            q.den : Nat) : ℚ)) * (2 : ℚ) ^ (max (floorLog2 q.num.natAbs q.den - 52) (-1074)) :=
      mul_nonneg (Nat.cast_nonneg _) (le_of_lt (zpow_pos (by norm_num) _))
    by_cases hneg : q.num < 0
    · have hqneg : q < 0 := Rat.num_neg.mp hneg
      have hR : roundQ q = (if (if 0 ≤ max (floorLog2 q.num.natAbs q.den - 52) (-1074)
          then roundHalfEven q.num.natAbs
            (q.den * 2 ^ (max (floorLog2 q.num.natAbs q.den - 52) (-1074)).toNat)
          else roundHalfEven
            (q.num.natAbs * 2 ^ (-(max (floorLog2 q.num.natAbs q.den - 52) (-1074))).toNat)
            q.den) = 0 then JSNum.negZero
          else JSNum.fin (-((((if 0 ≤ max (floorLog2 q.num.natAbs q.den - 52) (-1074)
          then roundHalfEven q.num.natAbs
            (q.den * 2 ^ (max (floorLog2 q.num.natAbs q.den - 52) (-1074)).toNat)
          else roundHalfEven
            (q.num.natAbs * 2 ^ (-(max (floorLog2 q.num.natAbs q.den - 52) (-1074))).toNat)
            q.den : Nat) : ℚ)) * (2 : ℚ) ^ (max (floorLog2 q.num.natAbs q.den - 52) (-1074))))) := by
        unfold roundQ
        simp only [hq0, if_false, h972, hneg, decide_True, if_true, h971, false_and, scale2_eq]
      obtain ⟨hf, ht⟩ := fin_ite_zero_neg
        (if 0 ≤ max (floorLog2 q.num.natAbs q.den - 52) (-1074)
          then roundHalfEven q.num.natAbs
            (q.den * 2 ^ (max (floorLog2 q.num.natAbs q.den - 52) (-1074)).toNat)
          else roundHalfEven
            (q.num.natAbs * 2 ^ (-(max (floorLog2 q.num.natAbs q.den - 52) (-1074))).toNat)
            q.den) ((2 : ℚ) ^ (max (floorLog2 q.num.natAbs q.den - 52) (-1074)))
      rw [hR]
      refine ⟨hf, ?_, ?_, ?_⟩
      · rw [ht]
        rw [abs_of_neg hqneg] at herr ⊢
        rw [← abs_neg, neg_sub, sub_neg_eq_add, add_comm, ← sub_neg_eq_add]
        exact herr
      · intro h; exact absurd hqneg (not_lt.mpr h)
      · intro _; rw [ht]; linarith
    · have hqpos : 0 < q := by
        have : 0 < q.num := lt_of_le_of_ne (not_lt.mp hneg) (Ne.symm hnum0)
        exact Rat.num_pos.mp this
      have hR : roundQ q = JSNum.fin ((((if 0 ≤ max (floorLog2 q.num.natAbs q.den - 52) (-1074)
          then roundHalfEven q.num.natAbs
            (q.den * 2 ^ (max (floorLog2 q.num.natAbs q.den - 52) (-1074)).toNat)
          else roundHalfEven
            (q.num.natAbs * 2 ^ (-(max (floorLog2 q.num.natAbs q.den - 52) (-1074))).toNat)
            q.den : Nat) : ℚ)) * (2 : ℚ) ^ (max (floorLog2 q.num.natAbs q.den - 52) (-1074))) := by
        unfold roundQ
        simp only [hq0, if_false, h972, hneg, decide_False, Bool.false_eq_true, h971, false_and,
          scale2_eq]
        exact fin_ite_zero _ _
      rw [hR]
      refine ⟨rfl, ?_, ?_, ?_⟩
      · simp only [JSNum.toRat]
        rw [abs_of_pos hqpos] at herr ⊢
        exact herr
      · intro _; exact hM0
      · intro h; exact absurd hqpos (not_lt.mpr h)

theorem roundErr_nonneg (a : ℚ) (h : 0 ≤ a) : 0 ≤ roundErr a := by
  unfold roundErr
  positivity

theorem roundErr_mono {a b : ℚ} (h : a ≤ b) : roundErr a ≤ roundErr b := by
  unfold roundErr
  have : a / 2 ^ 53 ≤ b / 2 ^ 53 := div_le_div_of_nonneg_right h (by positivity)
  linarith

theorem sumErr_ge (vs : List ℚ) : ∀ acc e : ℚ, 0 ≤ e → e ≤ sumErr acc e vs := by
  induction vs with
  | nil => intro acc e _; exact le_refl _
  | cons v vs ih =>
    intro acc e he
    have hr : 0 ≤ roundErr (|acc + v| + e) :=
      roundErr_nonneg _ (add_nonneg (abs_nonneg _) he)
    have := ih (acc + v) (e + roundErr (|acc + v| + e)) (by linarith)
    simp only [sumErr]
    linarith

theorem sum_abs_nonneg (vs : List ℚ) : 0 ≤ (vs.map (fun v => |v|)).sum := by
  apply List.sum_nonneg
  intro w hw
  obtain ⟨v, _, rfl⟩ := List.mem_map.mp hw
  exact abs_nonneg v

/-- One binary64 addition: the distance to the exact sum grows by at most the
rounding error of a value of magnitude `|exact sum| + error so far`. -/
theorem add_error (F x : JSNum) (acc e : ℚ) (hF : F.isFinite = true) (hx : x.isFinite = true)
    (he : 0 ≤ e) (hfe : |F.toRat - acc| ≤ e) (hb : |acc + x.toRat| + e < 2 ^ 1023) :
    (add F x).isFinite = true ∧
      |(add F x).toRat - (acc + x.toRat)| ≤ e + roundErr (|acc + x.toRat| + e) ∧
      (0 ≤ F.toRat → 0 ≤ x.toRat → 0 ≤ (add F x).toRat) := by
  have hr0 : 0 ≤ roundErr (|acc + x.toRat| + e) :=
    roundErr_nonneg _ (add_nonneg (abs_nonneg _) he)
  have hkeep : ∀ a : ℚ, |a - acc| ≤ e →
      |a + x.toRat - (acc + x.toRat)| ≤ e + roundErr (|acc + x.toRat| + e) := by
    intro a ha
    have : a + x.toRat - (acc + x.toRat) = a - acc := by ring
    rw [this]
    linarith
  cases F with
  | nan => simp [JSNum.isFinite] at hF
  | inf b => simp [JSNum.isFinite] at hF
  | negZero =>
    cases x with
    | nan => simp [JSNum.isFinite] at hx
    | inf b => simp [JSNum.isFinite] at hx
    | negZero =>
      have := hkeep 0 hfe
      simp only [JSNum.toRat, add_zero] at this hfe ⊢
      exact ⟨rfl, by simpa [add, JSNum.toRat] using this, fun _ _ => by simp [add, JSNum.toRat]⟩
    | fin b =>
      have := hkeep 0 hfe
      simp only [JSNum.toRat, zero_add] at this hfe ⊢
      exact ⟨rfl, by simpa [add, JSNum.toRat] using this,
        fun _ h => by simpa [add, JSNum.toRat] using h⟩
  | fin a =>
    cases x with
    | nan => simp [JSNum.isFinite] at hx
    | inf b => simp [JSNum.isFinite] at hx
    | negZero =>
      have := hkeep a hfe
      simp only [JSNum.toRat, add_zero] at this hfe ⊢
      exact ⟨rfl, by simpa [add, JSNum.toRat] using this,
        fun h _ => by simpa [add, JSNum.toRat] using h⟩
    | fin b =>
      rw [add_fin_fin]
      simp only [JSNum.toRat] at hfe hb hr0 hkeep
      show (roundQ (a + b)).isFinite = true ∧
        |(roundQ (a + b)).toRat - (acc + b)| ≤ e + roundErr (|acc + b| + e) ∧
        (0 ≤ a → 0 ≤ b → 0 ≤ (roundQ (a + b)).toRat)
      have hab : |a + b| ≤ |acc + b| + e := by
        have h1 : a + b = (acc + b) + (a - acc) := by ring
        rw [h1]
        exact le_trans (abs_add _ _) (by linarith)
      obtain ⟨h1, h2, h3, _⟩ := roundQ_error (a + b) (by linarith)
      refine ⟨h1, ?_, fun ha hb0 => h3 (add_nonneg ha hb0)⟩
      have hm : roundErr |a + b| ≤ roundErr (|acc + b| + e) := roundErr_mono hab
      have h4 : (roundQ (a + b)).toRat - (acc + b)
          = ((roundQ (a + b)).toRat - (a + b)) + (a - acc) := by ring
      rw [h4]
      calc _ ≤ |(roundQ (a + b)).toRat - (a + b)| + |a - acc| := abs_add _ _
        _ ≤ roundErr (|acc + b| + e) + e := by linarith
        _ = e + roundErr (|acc + b| + e) := by ring

/-- The binary64 left-to-right sum stays finite and within `sumErr` of the
exact sum, as long as the magnitudes and the error bound add up to less than
`2^1023`; it is non-negative when every summand is. -/
theorem foldl_add_error (xs : List JSNum) :
    ∀ (F : JSNum) (acc e : ℚ), (∀ x ∈ xs, x.isFinite = true) → F.isFinite = true →
      0 ≤ e → |F.toRat - acc| ≤ e →
      |acc| + ((xs.map JSNum.toRat).map (fun v => |v|)).sum
        + sumErr acc e (xs.map JSNum.toRat) < 2 ^ 1023 →
      (xs.foldl add F).isFinite = true ∧
        |(xs.foldl add F).toRat - (acc + (xs.map JSNum.toRat).sum)|
          ≤ sumErr acc e (xs.map JSNum.toRat) ∧
        (0 ≤ F.toRat → (∀ x ∈ xs, 0 ≤ x.toRat) → 0 ≤ (xs.foldl add F).toRat) := by
  induction xs with
  | nil =>
    intro F acc e _ hF _ hfe _
    exact ⟨hF, by simpa [sumErr] using hfe, fun h _ => h⟩
  | cons x xs ih =>
    intro F acc e hx hF he hfe hb
    have hx0 := hx x (List.mem_cons_self _ _)
    have hrest : ∀ y ∈ xs, y.isFinite = true := fun y hy => hx y (List.mem_cons_of_mem _ hy)
    simp only [List.map_cons, List.sum_cons, sumErr] at hb ⊢
    have hr0 : 0 ≤ roundErr (|acc + x.toRat| + e) :=
      roundErr_nonneg _ (add_nonneg (abs_nonneg _) he)
    have hge := sumErr_ge (xs.map JSNum.toRat) (acc + x.toRat)
      (e + roundErr (|acc + x.toRat| + e)) (by linarith)
    have hA0 := sum_abs_nonneg (xs.map JSNum.toRat)
    have htri : |acc + x.toRat| ≤ |acc| + |x.toRat| := abs_add _ _
    obtain ⟨h1, h2, h3⟩ := add_error F x acc e hF hx0 he hfe (by linarith)
    obtain ⟨g1, g2, g3⟩ := ih (add F x) (acc + x.toRat) (e + roundErr (|acc + x.toRat| + e))
      hrest h1 (by linarith) h2 (by linarith)
    rw [List.foldl_cons]
    refine ⟨g1, ?_, ?_⟩
    · have : acc + (x.toRat + (xs.map JSNum.toRat).sum)
          = acc + x.toRat + (xs.map JSNum.toRat).sum := by ring
      rw [this]; exact g2
    · intro hF0 hall
      exact g3 (h3 hF0 (hall x (List.mem_cons_self _ _)))
        (fun y hy => hall y (List.mem_cons_of_mem _ hy))

/-- The binary64 mean (left-to-right sum from 0, one division by the count)
is finite and within `meanErr` of the exact mean, as long as the magnitudes
and the error bound of the sum add up to less than `2^1023`; it is
non-negative when every value is. -/
theorem div_sum_error (xs : List JSNum) (hne : xs ≠ []) (hlen : xs.length < 2 ^ 32)
    (hfin : ∀ x ∈ xs, x.isFinite = true)
    (hb : ((xs.map JSNum.toRat).map (fun v => |v|)).sum
      + sumErr 0 0 (xs.map JSNum.toRat) < 2 ^ 1023) :
    (div (xs.foldl add (JSNum.fin 0)) (ofNat xs.length)).isFinite = true ∧
      |(div (xs.foldl add (JSNum.fin 0)) (ofNat xs.length)).toRat - mean (xs.map JSNum.toRat)|
        ≤ meanErr (xs.map JSNum.toRat) ∧
      ((∀ x ∈ xs, 0 ≤ x.toRat) →
        0 ≤ (div (xs.foldl add (JSNum.fin 0)) (ofNat xs.length)).toRat) := by
  have hE0 : 0 ≤ sumErr 0 0 (xs.map JSNum.toRat) := sumErr_ge _ 0 0 (le_refl _)
  have hA0 := sum_abs_nonneg (xs.map JSNum.toRat)
  have hn1 : 1 ≤ xs.length := by
    cases xs with
    | nil => exact absurd rfl hne
    | cons a l => simp
  have hnq1 : (1 : ℚ) ≤ (xs.length : ℚ) := by exact_mod_cast hn1
  have hnq : (0 : ℚ) < (xs.length : ℚ) := by linarith
  have hnne : (xs.length : ℚ) ≠ 0 := ne_of_gt hnq
  have hSA : |(xs.map JSNum.toRat).sum| ≤ ((xs.map JSNum.toRat).map (fun v => |v|)).sum := by
    generalize xs.map JSNum.toRat = vs
    induction vs with
    | nil => simp
    | cons v vs ih =>
      simp only [List.map_cons, List.sum_cons]
      exact le_trans (abs_add _ _) (by linarith)
  obtain ⟨hF, herr, hpos⟩ := foldl_add_error xs (JSNum.fin 0) 0 0 hfin rfl (le_refl _)
    (by simp [JSNum.toRat]) (by simpa using hb)
  simp only [zero_add] at herr
  rw [ofNat_eq _ hlen]
  unfold meanErr mean
  simp only [List.length_map]
  set S := (xs.map JSNum.toRat).sum with hSdef
  set E := sumErr 0 0 (xs.map JSNum.toRat) with hEdef
  set F := xs.foldl add (JSNum.fin 0) with hFdef
  have hFS : |F.toRat| ≤ |S| + E := by
    have h1 : F.toRat = S + (F.toRat - S) := by ring
    rw [h1]
    exact le_trans (abs_add _ _) (by linarith)
  have hdiverr : |F.toRat / (xs.length : ℚ) - S / (xs.length : ℚ)| ≤ E / (xs.length : ℚ) := by
    rw [← sub_div, abs_div, abs_of_pos hnq]
    exact div_le_div_of_nonneg_right herr (le_of_lt hnq)
  have hqle : |F.toRat / (xs.length : ℚ)| ≤ |S / (xs.length : ℚ)| + E / (xs.length : ℚ) := by
    rw [abs_div, abs_div, abs_of_pos hnq, ← add_div]
    exact div_le_div_of_nonneg_right hFS (le_of_lt hnq)
  have hqb : |F.toRat / (xs.length : ℚ)| < 2 ^ 1023 := by
    have : |F.toRat / (xs.length : ℚ)| ≤ |F.toRat| := by
      rw [abs_div, abs_of_pos hnq]
      exact div_le_self (abs_nonneg _) hnq1
    linarith
  have hR0 : 0 ≤ roundErr (|S / (xs.length : ℚ)| + E / (xs.length : ℚ)) :=
    roundErr_nonneg _ (add_nonneg (abs_nonneg _) (div_nonneg hE0 (le_of_lt hnq)))
  -- the quotient, whatever the shape of the sum
  have hquot : (div F (JSNum.fin (xs.length : ℚ))).isFinite = true ∧
      |(div F (JSNum.fin (xs.length : ℚ))).toRat - F.toRat / (xs.length : ℚ)|
        ≤ roundErr (|S / (xs.length : ℚ)| + E / (xs.length : ℚ)) ∧
      (0 ≤ F.toRat → 0 ≤ (div F (JSNum.fin (xs.length : ℚ))).toRat) := by
    obtain ⟨r1, r2, r3, _⟩ := roundQ_error (F.toRat / (xs.length : ℚ)) hqb
    have hm : roundErr |F.toRat / (xs.length : ℚ)|
        ≤ roundErr (|S / (xs.length : ℚ)| + E / (xs.length : ℚ)) := roundErr_mono hqle
    generalize F = G at hF r1 r2 r3 hm ⊢
    cases G with
    | nan => simp [JSNum.isFinite] at hF
    | inf b => simp [JSNum.isFinite] at hF
    | negZero =>
      have e1 : div JSNum.negZero (JSNum.fin (xs.length : ℚ)) = JSNum.negZero := by
        have hlt : ¬ ((xs.length : ℚ) < 0) := not_lt.mpr (le_of_lt hnq)
        simp [div, JSNum.toRat?, hnne, signedZero, JSNum.isNeg, hlt]
      rw [e1]
      simp only [JSNum.toRat, zero_div, sub_zero, abs_zero]
      exact ⟨rfl, hR0, fun _ => le_refl _⟩
    | fin a =>
      by_cases hz : a = 0
      · subst hz
        have e1 : div (JSNum.fin 0) (JSNum.fin (xs.length : ℚ)) = JSNum.fin 0 := by
          have hlt : ¬ ((xs.length : ℚ) < 0) := not_lt.mpr (le_of_lt hnq)
          simp [div, JSNum.toRat?, hnne, signedZero, JSNum.isNeg, hlt]
        rw [e1]
        simp only [JSNum.toRat, zero_div, sub_zero, abs_zero]
        exact ⟨rfl, hR0, fun _ => le_refl _⟩
      · have e1 : div (JSNum.fin a) (JSNum.fin (xs.length : ℚ))
            = roundQ (a / (xs.length : ℚ)) := by
          simp only [div, JSNum.toRat?, hnne, hz, if_false]
        rw [e1]
        simp only [JSNum.toRat] at r1 r2 r3 hm ⊢
        exact ⟨r1, le_trans r2 hm, fun ha => r3 (div_nonneg ha (le_of_lt hnq))⟩
  obtain ⟨q1, q2, q3⟩ := hquot
  refine ⟨q1, ?_, fun hall => q3 (hpos (by simp [JSNum.toRat]) hall)⟩
  have h4 : (div F (JSNum.fin (xs.length : ℚ))).toRat - S / (xs.length : ℚ)
      = ((div F (JSNum.fin (xs.length : ℚ))).toRat - F.toRat / (xs.length : ℚ))
        + (F.toRat / (xs.length : ℚ) - S / (xs.length : ℚ)) := by ring
  rw [h4]
  calc _ ≤ |(div F (JSNum.fin (xs.length : ℚ))).toRat - F.toRat / (xs.length : ℚ)|
        + |F.toRat / (xs.length : ℚ) - S / (xs.length : ℚ)| := abs_add _ _
    _ ≤ roundErr (|S / (xs.length : ℚ)| + E / (xs.length : ℚ)) + E / (xs.length : ℚ) := by
        linarith
    _ = _ := by ring

theorem floorNat_eq (x : ℚ) (N : Nat) (h1 : (N : ℚ) ≤ x) (h2 : x < (N : ℚ) + 1) :
    floorNat x = N := by
  have hx0 : 0 ≤ x := le_trans (Nat.cast_nonneg N) h1
  have hnum : 0 ≤ x.num := Rat.num_nonneg.mpr hx0
  have hfl : ⌊x⌋ = (N : Int) := by
    rw [Int.floor_eq_iff]
    exact ⟨by exact_mod_cast h1, by exact_mod_cast h2⟩
  rw [Rat.floor_def] at hfl
  unfold floorNat
  obtain ⟨a, ha⟩ := Int.eq_ofNat_of_zero_le hnum
  rw [ha] at hfl ⊢
  simp only [Int.toNat_ofNat]
  have : ((a / x.den : Nat) : Int) = (N : Int) := by
    rw [← hfl]
    norm_cast
  exact_mod_cast this

theorem nearestInt_eq_of_clear (x t δ : ℚ) (hx : |x - t| ≤ δ)
    (hc : clearOfTie t δ = true) : nearestInt x = nearestInt t := by
  simp only [clearOfTie, decide_eq_true_eq] at hc
  obtain ⟨h1, h2⟩ := hc
  obtain ⟨ha, hb⟩ := abs_le.mp hx
  unfold nearestInt
  apply floorNat_eq
  · unfold nearestInt at h1; linarith
  · unfold nearestInt at h2; linarith

theorem decimal3_congr (a b : ℚ) (hs : a < 0 ↔ b < 0)
    (h : nearestInt (|a| * 1000) = nearestInt (|b| * 1000)) : decimal3 a = decimal3 b := by
  unfold decimal3
  simp only [h]
  by_cases ha : a < 0
  · simp only [ha, hs.mp ha, if_true]
  · have hb : ¬ b < 0 := fun hb => ha (hs.mpr hb)
    simp only [ha, hb, if_false]

theorem toFixed_finite (x : JSNum) (hf : x.isFinite = true) (hb : |x.toRat| < 10 ^ 21) :
    toFixed x 3 = decimal3 x.toRat := by
  cases x with
  | nan => simp [JSNum.isFinite] at hf
  | inf b => simp [JSNum.isFinite] at hf
  | negZero => decide!
  | fin q => exact toFixed_fin q hb

theorem toFixed_mean (xs : List JSNum) (hne : xs ≠ []) (hlen : xs.length < 2 ^ 32)
    (hfin : ∀ x ∈ xs, x.isFinite = true)
    (h : noRounding (xs.map JSNum.toRat) = true ∨ safeMargin (xs.map JSNum.toRat) = true) :
    toFixed (div (xs.foldl add (JSNum.fin 0)) (ofNat xs.length)) 3
      = decimal3 (mean (xs.map JSNum.toRat)) := by
  rcases h with h | h
  · simp only [noRounding, Bool.and_eq_true, decide_eq_true_eq] at h
    rw [div_sum_exact xs hne hlen hfin h.1, toFixed_fin _ h.2]
  · simp only [safeMargin, Bool.and_eq_true, Bool.or_eq_true, decide_eq_true_eq,
      List.all_eq_true] at h
    obtain ⟨⟨⟨hov, hb⟩, hsign⟩, hc⟩ := h
    obtain ⟨hF, herr, hpos⟩ := div_sum_error xs hne hlen hfin hov
    generalize div (xs.foldl add (JSNum.fin 0)) (ofNat xs.length) = R at hF herr hpos ⊢
    have hRle : |R.toRat| ≤ |mean (xs.map JSNum.toRat)| + meanErr (xs.map JSNum.toRat) := by
      have h1 : R.toRat = mean (xs.map JSNum.toRat) + (R.toRat - mean (xs.map JSNum.toRat)) := by
        ring
      rw [h1]
      exact le_trans (abs_add _ _) (by linarith)
    rw [toFixed_finite R hF (by linarith)]
    apply decimal3_congr
    · rcases hsign with hall | hfar
      · have hR0 : 0 ≤ R.toRat := by
          apply hpos
          intro x hx
          exact hall _ (List.mem_map_of_mem _ hx)
        have hm0 : 0 ≤ mean (xs.map JSNum.toRat) := by
          unfold mean
          exact div_nonneg (List.sum_nonneg hall) (Nat.cast_nonneg _)
        constructor
        · intro hc1; exact absurd hc1 (not_lt.mpr hR0)
        · intro hc1; exact absurd hc1 (not_lt.mpr hm0)
      · have hlt : |R.toRat - mean (xs.map JSNum.toRat)| < |mean (xs.map JSNum.toRat)| :=
          lt_of_le_of_lt herr hfar
        obtain ⟨h1, h2⟩ := abs_lt.mp hlt
        constructor
        · intro hR
          by_contra hm
          rw [abs_of_nonneg (not_lt.mp hm)] at h1
          linarith
        · intro hm
          rw [abs_of_neg hm] at h2
          linarith
    · apply nearestInt_eq_of_clear _ _ _ ?_ hc
      rw [← sub_mul, abs_mul]
      have h1000 : |(1000 : ℚ)| = 1000 := by norm_num
      rw [h1000]
      exact mul_le_mul_of_nonneg_right
        (le_trans (abs_abs_sub_abs_le_abs_sub _ _) herr) (by norm_num)

/-- C1 (as amended): for a non-empty sequence of fewer than `2^32` records whose
field `m` holds a finite number or is blank/null/absent, `summary[m]` is the
arithmetic mean of the field (blank counted as 0, every record in the
denominator) rounded to 3 decimals with three fractional digits, provided the
binary64 arithmetic cannot change the rounding: either no addition and not the
division rounds, or no running sum can overflow and the mean is farther from a
rounding boundary, and from a change of sign, than the accumulated rounding
error. -/
theorem SummaryTable_mean (data : List Row) (m : String)
    (hne : data ≠ []) (hlen : data.length < 2 ^ 32) (hm : m ∈ metrics)
    (hval : ∀ row ∈ data, isNumOrBlank (getProp row m) = true)
    (hround : noRounding (data.map (fun row => fieldValue (getProp row m))) = true ∨
      safeMargin (data.map (fun row => fieldValue (getProp row m))) = true) :
    (SummaryTable data).lookup m
      = some (decimal3 (mean (data.map (fun row => fieldValue (getProp row m))))) := by
  have hmap : (data.map (fun row => summand row m)).map JSNum.toRat
      = data.map (fun row => fieldValue (getProp row m)) := by
    rw [List.map_map]
    apply List.map_congr_left
    intro row hrow
    exact (summand_of_numOrBlank row m (hval row hrow)).2
  rw [lookup_SummaryTable data m hm, summaryCell_eq,
    toFixed_mean (data.map (fun row => summand row m)) (by simpa using hne)
      (by simpa using hlen)
      (by
        intro x hx
        obtain ⟨row, hrow, rfl⟩ := List.mem_map.mp hx
        exact (summand_of_numOrBlank row m (hval row hrow)).1)
      (by rw [hmap]; exact hround),
    hmap]

/-- Witness for C1: the single record of scenario 1 (nothing rounds) gives
accuracy "0.900"; the three records of scenario 2 (the sum 0.8 + 0.6 rounds,
within the margin) give accuracy "0.800"; two records with losses -0.1 and
-0.2 (the sum rounds, within the margin) give loss "-0.150". -/
theorem SummaryTable_mean_witness :
    ((SummaryTable [scenario1]).lookup "accuracy"
        = some (decimal3 (mean ([scenario1].map (fun row => fieldValue (getProp row "accuracy")))))
      ∧ decimal3 (mean ([scenario1].map (fun row => fieldValue (getProp row "accuracy"))))
        = "0.900")
    ∧ ((SummaryTable scenario2).lookup "accuracy"
        = some (decimal3 (mean (scenario2.map (fun row => fieldValue (getProp row "accuracy")))))
      ∧ decimal3 (mean (scenario2.map (fun row => fieldValue (getProp row "accuracy"))))
        = "0.800"
      ∧ noRounding (scenario2.map (fun row => fieldValue (getProp row "accuracy"))) = false)
    ∧ ((SummaryTable negativeLosses).lookup "loss"
        = some (decimal3 (mean (negativeLosses.map (fun row => fieldValue (getProp row "loss")))))
      ∧ decimal3 (mean (negativeLosses.map (fun row => fieldValue (getProp row "loss"))))
        = "-0.150"
      ∧ noRounding (negativeLosses.map (fun row => fieldValue (getProp row "loss"))) = false) :=
  ⟨⟨SummaryTable_mean [scenario1] "accuracy" (by decide!) (by decide!) (by decide!)
      (by decide!) (Or.inl (by decide!)), by decide!⟩,
   ⟨SummaryTable_mean scenario2 "accuracy" (by decide!) (by decide!) (by decide!)
      (by decide!) (Or.inr (by decide!)), by decide!, by decide!⟩,
   ⟨SummaryTable_mean negativeLosses "loss" (by decide!) (by decide!) (by decide!)
      (by decide!) (Or.inr (by decide!)), by decide!, by decide!⟩⟩

/-- C1 (counterexample): five records with accuracies 0.1875, 0, 0, 0, 0 have
mean exactly 0.0375, which rounds to "0.038"; `summary.accuracy` is "0.037".
No other convention for ties explains it: the single record 0.1875, whose
mean 0.1875 is a tie of the same parity, gives "0.188".  Two more effects of
binary64: accuracies `2^1023`, `2^1023`, `-2^1023`, `-2^1023` have mean 0 but
the running sum overflows and the cell reads "Infinity"; accuracies `2^33`,
`2^-20`, `-2^33`, `-2^-21` have the positive mean `2^-23` but the first sum
rounds, the binary64 mean is `-2^-23` and the cell reads "-0.000". -/
theorem SummaryTable_mean_counterexample :
    ((∀ row ∈ fiveRuns, ∀ m ∈ metrics, isNumOrBlank (getProp row m) = true)
      ∧ mean (fiveRuns.map (fun row => fieldValue (getProp row "accuracy"))) = 3 / 80
      ∧ decimal3 (3 / 80) = "0.038"
      ∧ (SummaryTable fiveRuns).lookup "accuracy" = some "0.037"
      ∧ (SummaryTable [sample (JSVal.str "CNN") (3 / 16)]).lookup "accuracy" = some "0.188")
    ∧ ((∀ row ∈ overflowRuns, ∀ m ∈ metrics, isNumOrBlank (getProp row m) = true)
      ∧ mean (overflowRuns.map (fun row => fieldValue (getProp row "accuracy"))) = 0
      ∧ decimal3 0 = "0.000"
      ∧ (SummaryTable overflowRuns).lookup "accuracy" = some "Infinity")
    ∧ ((∀ row ∈ cancellingRuns, ∀ m ∈ metrics, isNumOrBlank (getProp row m) = true)
      ∧ mean (cancellingRuns.map (fun row => fieldValue (getProp row "accuracy"))) = 1 / 2 ^ 23
      ∧ decimal3 (1 / 2 ^ 23) = "0.000"
      ∧ (SummaryTable cancellingRuns).lookup "accuracy" = some "-0.000") := by
  decide!

theorem promedio_of_mean (data : List Row) (metric : String) (row : Row)
    (hrow : row ∈ data) (hlen : data.length < 2 ^ 32)
    (hnum : ∀ r ∈ data, isFiniteNum (getProp r metric) = true)
    (hround : noRounding (groupRats data metric (modelKey row)) = true ∨
      safeMargin (groupRats data metric (modelKey row)) = true) :
    promedio (groupValues data metric (modelKey row))
      = decimal3 (mean (groupRats data metric (modelKey row))) := by
  have hne : groupValues data metric (modelKey row) ≠ [] := by
    have : row ∈ data.filter (fun r => decide (modelKey r = modelKey row)) := by
      simp [List.mem_filter, hrow]
    intro hc
    unfold groupValues at hc
    rw [List.map_eq_nil_iff] at hc
    rw [hc] at this
    cases this
  have hl : (groupValues data metric (modelKey row)).length < 2 ^ 32 := by
    unfold groupValues
    rw [List.length_map]
    exact lt_of_le_of_lt (List.length_filter_le _ _) hlen
  have hfin : ∀ x ∈ groupValues data metric (modelKey row), x.isFinite = true := by
    intro x hx
    unfold groupValues at hx
    obtain ⟨r, hr, rfl⟩ := List.mem_map.mp hx
    exact (toNumber_of_finiteNum _ (hnum r (List.mem_of_mem_filter hr))).1
  unfold promedio
  rw [toFixed_mean _ hne hl hfin (by rw [groupValues_toRat _ _ _ hnum]; exact hround),
    groupValues_toRat _ _ _ hnum]

theorem groupRats_ne_nil (data : List Row) (metric : String) (row : Row) (hrow : row ∈ data) :
    groupRats data metric (modelKey row) ≠ [] := by
  have : row ∈ data.filter (fun r => decide (modelKey r = modelKey row)) := by
    simp [List.mem_filter, hrow]
  intro hc
  unfold groupRats at hc
  rw [List.map_eq_nil_iff] at hc
  rw [hc] at this
  cases this

/-- C2 (as amended): when no label's property key is a name inherited from
`Object.prototype` and every metric value is a finite number, `groupByModel`
returns one entry per distinct key and no other entry, every record falls
under exactly one entry, and the `promedio` of an entry is the arithmetic
mean over the records of its key (there is at least one), rounded to 3
decimals with three fractional digits, provided that in that group the
binary64 arithmetic cannot change the rounding: either nothing rounds, or no
running sum can overflow and the mean is farther from a rounding boundary, and
from a change of sign, than the accumulated rounding error. -/
theorem groupByModel_mean (data : List Row) (metric : String)
    (hlen : data.length < 2 ^ 32)
    (hp : ∀ row ∈ data, modelKey row ∉ objectPrototypeKeys)
    (hnum : ∀ row ∈ data, isFiniteNum (getProp row metric) = true) :
    ∃ entries, groupByModel data metric = Except.ok entries ∧
      (entries.map Entry.modelo).Nodup ∧
      (∀ k, k ∈ entries.map Entry.modelo ↔ k ∈ data.map modelKey) ∧
      ∀ e ∈ entries, groupRats data metric e.modelo ≠ [] ∧
        ((noRounding (groupRats data metric e.modelo) = true ∨
            safeMargin (groupRats data metric e.modelo) = true) →
          e.promedio = decimal3 (mean (groupRats data metric e.modelo))) := by
  have hperm := (ownEntries_perm ((firstEncounter (data.map modelKey)).map
    (fun k => (k, groupValues data metric k)))).map (fun p => p.1)
  rw [keys_firstEncounter_map] at hperm
  refine ⟨_, groupByModel_eq data metric hp, ?_, ?_, ?_⟩
  · rw [labels_of_entries]
    exact hperm.nodup_iff.mpr (nodup_firstEncounter _)
  · intro k
    rw [labels_of_entries, hperm.mem_iff, mem_firstEncounter]
  · intro e he
    obtain ⟨p, hpm, rfl⟩ := List.mem_map.mp he
    have hpE := (ownEntries_perm _).mem_iff.mp hpm
    obtain ⟨k, hk, rfl⟩ := List.mem_map.mp hpE
    rw [mem_firstEncounter] at hk
    obtain ⟨row, hrow, rfl⟩ := List.mem_map.mp hk
    exact ⟨groupRats_ne_nil data metric row hrow,
      fun hround => promedio_of_mean data metric row hrow hlen hnum hround⟩

/-- Witness for C2: the records of scenario 2, CNN 0.8, CNN 0.6, RNN 1.0, give
CNN "0.700" (the sum rounds, within the margin) and RNN "1.000" (nothing
rounds).  With the five CNN records 0.1875, 0, 0, 0, 0 in front of RNN 0.8 and
RNN 0.6, the RNN group is within its margin and reads "0.700" whatever the CNN
group does.  Two CNN records with losses -0.1 and -0.2 give "-0.150". -/
theorem groupByModel_mean_witness :
    ((∃ entries, groupByModel scenario2 "accuracy" = Except.ok entries ∧
        (entries.map Entry.modelo).Nodup ∧
        (∀ k, k ∈ entries.map Entry.modelo ↔ k ∈ scenario2.map modelKey) ∧
        ∀ e ∈ entries, groupRats scenario2 "accuracy" e.modelo ≠ [] ∧
          ((noRounding (groupRats scenario2 "accuracy" e.modelo) = true ∨
              safeMargin (groupRats scenario2 "accuracy" e.modelo) = true) →
            e.promedio = decimal3 (mean (groupRats scenario2 "accuracy" e.modelo))))
      ∧ groupByModel scenario2 "accuracy" = Except.ok [⟨"CNN", "0.700"⟩, ⟨"RNN", "1.000"⟩]
      ∧ safeMargin (groupRats scenario2 "accuracy" "CNN") = true
      ∧ noRounding (groupRats scenario2 "accuracy" "RNN") = true
      ∧ decimal3 (mean (groupRats scenario2 "accuracy" "CNN")) = "0.700"
      ∧ decimal3 (mean (groupRats scenario2 "accuracy" "RNN")) = "1.000")
    ∧ ((∃ entries, groupByModel twoGroups "accuracy" = Except.ok entries ∧
        (entries.map Entry.modelo).Nodup ∧
        (∀ k, k ∈ entries.map Entry.modelo ↔ k ∈ twoGroups.map modelKey) ∧
        ∀ e ∈ entries, groupRats twoGroups "accuracy" e.modelo ≠ [] ∧
          ((noRounding (groupRats twoGroups "accuracy" e.modelo) = true ∨
              safeMargin (groupRats twoGroups "accuracy" e.modelo) = true) →
            e.promedio = decimal3 (mean (groupRats twoGroups "accuracy" e.modelo))))
      ∧ groupByModel twoGroups "accuracy" = Except.ok [⟨"CNN", "0.037"⟩, ⟨"RNN", "0.700"⟩]
      ∧ safeMargin (groupRats twoGroups "accuracy" "RNN") = true
      ∧ decimal3 (mean (groupRats twoGroups "accuracy" "RNN")) = "0.700")
    ∧ ((∃ entries, groupByModel negativeLosses "loss" = Except.ok entries ∧
        (entries.map Entry.modelo).Nodup ∧
        (∀ k, k ∈ entries.map Entry.modelo ↔ k ∈ negativeLosses.map modelKey) ∧
        ∀ e ∈ entries, groupRats negativeLosses "loss" e.modelo ≠ [] ∧
          ((noRounding (groupRats negativeLosses "loss" e.modelo) = true ∨
              safeMargin (groupRats negativeLosses "loss" e.modelo) = true) →
            e.promedio = decimal3 (mean (groupRats negativeLosses "loss" e.modelo))))
      ∧ groupByModel negativeLosses "loss" = Except.ok [⟨"CNN", "-0.150"⟩]
      ∧ safeMargin (groupRats negativeLosses "loss" "CNN") = true
      ∧ decimal3 (mean (groupRats negativeLosses "loss" "CNN")) = "-0.150") :=
  ⟨⟨groupByModel_mean scenario2 "accuracy" (by decide!) (by decide!) (by decide!),
      by decide!, by decide!, by decide!, by decide!, by decide!⟩,
   ⟨groupByModel_mean twoGroups "accuracy" (by decide!) (by decide!) (by decide!),
      by decide!, by decide!, by decide!⟩,
   ⟨groupByModel_mean negativeLosses "loss" (by decide!) (by decide!) (by decide!),
      by decide!, by decide!, by decide!⟩⟩

/-- C2 (counterexample): five CNN records with accuracies 0.1875, 0, 0, 0, 0
have mean exactly 0.0375, which rounds to "0.038"; the entry's `promedio` is
"0.037".  No other convention for ties explains it: a single CNN record with
accuracy 0.1875, a tie of the same parity, gives "0.188". -/
theorem groupByModel_mean_counterexample :
    (∀ row ∈ fiveRuns, isFiniteNum (getProp row "accuracy") = true)
      ∧ mean (groupRats fiveRuns "accuracy" "CNN") = 3 / 80
      ∧ decimal3 (3 / 80) = "0.038"
      ∧ groupByModel fiveRuns "accuracy" = Except.ok [⟨"CNN", "0.037"⟩]
      ∧ groupByModel [sample (JSVal.str "CNN") (3 / 16)] "accuracy"
          = Except.ok [⟨"CNN", "0.188"⟩] := by
  decide!

end App
